import Mathlib

/-!
Verification of the tt-core journal engine against its specification.

The development shallowly embeds the Rust sources:
  * `src/record.rs`        — the `Record` line format (`ToString` / `FromStr` via
    the anchored `RECORD_REGEX`),
  * `src/journal/file/iter.rs` — the rope-backed line cursor `Iter` and its
    operations (`lines_count`, `get`, `forward`, `backward`, `go_to_start`,
    `go_to_end`, `go_to_record`, `update`, `remove`, `flush`),
  * `src/journal/file/mod.rs`  — the `FileJournal` facade (`get`, `update`,
    `remove`) and the query resolver `iter_to_record`.

Text is modelled as `List Char`.  The `ropey::Rope` backing the cursor is
modelled by the list of its line segments obtained by splitting the text on
`'\n'` (each segment is the line text without its terminating `'\n'`; a
`'\r'` that precedes a `'\n'` stays at the end of its segment, exactly as a
rope slice keeps it).  `rope.len_lines` is the length of that list (always
at least 1 for a rope built from a file, since splitting never yields `[]`),
`rope.line i` re-attaches the `'\n'` of every non-final segment, and
`rope.line_to_char` sums segment lengths plus one per terminator.

External collaborators (the `chrono` date/duration types and the `regex`
engine) are not repository code; they are modelled from their documented
behaviour: `Duration` as a signed number of seconds with truncating
`num_minutes`, `DateTime<Local>` as a plain calendar tuple formatted and
parsed with the fixed `"%Y-%m-%d %H:%M:%S"` pattern (years 0–9999, whole
seconds; the `Local` time-zone reinterpretation and sub-second digits are
outside every claim), and `RECORD_REGEX` as a deterministic matcher that is
equivalent to the backtracking engine on the anchored pattern (every star in
the pattern is over a character class that is disjoint from, or absorbed by,
what follows it, so greedy maximal munch is complete).
-/

/-- Text is a list of characters. -/
abbrev Str := List Char

/-- Unicode white space, the `\s` class of the Rust `regex` crate
(`[\t\n\v\f\r \x85\xA0\x{1680}\x{2000}-\x{200A}\x{2028}\x{2029}\x{202F}\x{205F}\x{3000}]`). -/
def isWsChar (c : Char) : Bool :=
  let n := c.toNat
  n = 9 || n = 10 || n = 11 || n = 12 || n = 13 || n = 32 ||
  n = 0x85 || n = 0xA0 || n = 0x1680 || (0x2000 ≤ n && n ≤ 0x200A) ||
  n = 0x2028 || n = 0x2029 || n = 0x202F || n = 0x205F || n = 0x3000

/-- The regex class `[0-9]`. -/
def isDigit10 (c : Char) : Bool :=
  48 ≤ c.toNat && c.toNat ≤ 57

/-- The note character class of `RECORD_REGEX`: `[^\n|^\r\n]`, i.e. any
character other than `'\n'`, `'|'`, `'^'`, `'\r'` (inside a negated class the
second `^` and the repeated `\n` are literals). -/
def noteCls (c : Char) : Bool :=
  !(c.toNat = 10 || c.toNat = 124 || c.toNat = 94 || c.toNat = 13)

/-- Drop the maximal leading run of `\s` characters (a greedy `\s*`). -/
def dropWs (s : Str) : Str := s.dropWhile isWsChar

/-- Value of a big-endian digit run, accumulator style (`str::parse` core). -/
def parseNatFold (acc : Nat) (s : Str) : Nat :=
  s.foldl (fun a c => a * 10 + (c.toNat - 48)) acc

/-- Value of a big-endian digit run. -/
def parseNatDigits (s : Str) : Nat := parseNatFold 0 s

/-- Decimal digits of `n`, big-endian, empty for `0`; `fuel ≥ n` makes the
recursion total (used with `fuel = n`). -/
def natDigitsAux : Nat → Nat → Str
  | 0, _ => []
  | fuel + 1, n =>
    if n = 0 then [] else natDigitsAux fuel (n / 10) ++ [Nat.digitChar (n % 10)]

/-- Decimal representation of a natural number (Rust `u64`/`i64` `Display`). -/
def natToStr (n : Nat) : Str := if n = 0 then ['0'] else natDigitsAux n n

/-- Decimal representation of an integer (Rust `i64` `Display`). -/
def intToStr (i : Int) : Str :=
  if i < 0 then '-' :: natToStr (-i).toNat else natToStr i.toNat

/-- Rust `str::parse::<i64>()` returning `none` on malformed input or
overflow: an optional sign, then a non-empty digit run, nothing else, value
within `[-2^63, 2^63 - 1]`. -/
def parseI64 (s : Str) : Option Int :=
  let sgn : Bool × Str :=
    match s with
    | [] => (false, [])
    | c :: t => if c = '-' then (true, t) else if c = '+' then (false, t) else (false, s)
  let neg := sgn.1
  let ds := sgn.2
  if ds ≠ [] && ds.all isDigit10 then
    let v : Nat := parseNatDigits ds
    if neg then
      if v ≤ 2 ^ 63 then some (-(v : Int)) else none
    else
      if v ≤ 2 ^ 63 - 1 then some (v : Int) else none
  else none

/-- Model of `chrono::Duration` (an external collaborator of `record.rs`):
a signed number of whole seconds.  Sub-second precision is irrelevant to the
journal engine, which only ever constructs whole-minute durations. -/
structure Duration where
  secs : Int
deriving DecidableEq, Repr

/-- Model of `chrono::Duration::minutes`. -/
def Duration.minutes (m : Int) : Duration := ⟨m * 60⟩

/-- Model of `chrono::Duration::num_minutes`: seconds divided by 60,
rounding toward zero (Rust integer division). -/
def Duration.numMinutes (d : Duration) : Int :=
  if 0 ≤ d.secs then ((d.secs.toNat / 60 : Nat) : Int)
  else -(((-d.secs).toNat / 60 : Nat) : Int)

/-- Model of `chrono::DateTime<Local>` (an external collaborator): a plain
calendar timestamp at whole-second precision.  The `Local` time zone is
treated as a bijection between instants and calendar tuples; sub-second
digits are dropped by the fixed `"%Y-%m-%d %H:%M:%S"` format anyway. -/
structure DateTimeLocal where
  year : Nat
  month : Nat
  day : Nat
  hour : Nat
  minute : Nat
  second : Nat
deriving DecidableEq, Repr

/-- Gregorian leap year. -/
def isLeapYear (y : Nat) : Bool :=
  (y % 4 = 0 && y % 100 ≠ 0) || y % 400 = 0

/-- Days in a month of the proleptic Gregorian calendar. -/
def daysInMonth (y m : Nat) : Nat :=
  if m = 2 then (if isLeapYear y then 29 else 28)
  else if m = 4 || m = 6 || m = 9 || m = 11 then 30
  else 31

/-- Calendar timestamps representable by a `chrono` datetime and printed as
four year digits by `%Y` (years 0–9999). -/
def validDT (dt : DateTimeLocal) : Bool :=
  dt.year ≤ 9999 &&
  1 ≤ dt.month && dt.month ≤ 12 &&
  1 ≤ dt.day && dt.day ≤ daysInMonth dt.year dt.month &&
  dt.hour ≤ 23 && dt.minute ≤ 59 && dt.second ≤ 59

/-- Two-digit zero-padded decimal field. -/
def pad2 (n : Nat) : Str :=
  [Nat.digitChar (n / 10 % 10), Nat.digitChar (n % 10)]

/-- Four-digit zero-padded decimal field (`%Y` for years 0–9999). -/
def pad4 (n : Nat) : Str :=
  [Nat.digitChar (n / 1000 % 10), Nat.digitChar (n / 100 % 10),
   Nat.digitChar (n / 10 % 10), Nat.digitChar (n % 10)]

/-- Model of `dt.format("%Y-%m-%d %H:%M:%S").to_string()`. -/
def formatDT (dt : DateTimeLocal) : Str :=
  pad4 dt.year ++ '-' :: pad2 dt.month ++ '-' :: pad2 dt.day ++
  ' ' :: pad2 dt.hour ++ ':' :: pad2 dt.minute ++ ':' :: pad2 dt.second

/-- Numeric value of two digit characters. -/
def val2 (a b : Char) : Nat := (a.toNat - 48) * 10 + (b.toNat - 48)

/-- Model of `Local.datetime_from_str(s, "%Y-%m-%d %H:%M:%S").ok()`:
the exact fixed-width shape produced by `formatDT`, validated as a real
calendar timestamp (`chrono` rejects out-of-range fields). -/
def parseDateTime (s : Str) : Option DateTimeLocal :=
  match s with
  | y1 :: y2 :: y3 :: y4 :: c1 :: m1 :: m2 :: c2 :: d1 :: d2 :: c3 ::
    h1 :: h2 :: c4 :: n1 :: n2 :: c5 :: s1 :: s2 :: [] =>
    if (c1 = '-' && c2 = '-' && c3 = ' ' && c4 = ':' && c5 = ':' &&
        isDigit10 y1 && isDigit10 y2 && isDigit10 y3 && isDigit10 y4 &&
        isDigit10 m1 && isDigit10 m2 && isDigit10 d1 && isDigit10 d2 &&
        isDigit10 h1 && isDigit10 h2 && isDigit10 n1 && isDigit10 n2 &&
        isDigit10 s1 && isDigit10 s2) then
      let dt : DateTimeLocal :=
        { year := val2 y1 y2 * 100 + val2 y3 y4
          month := val2 m1 m2
          day := val2 d1 d2
          hour := val2 h1 h2
          minute := val2 n1 n2
          second := val2 s1 s2 }
      if validDT dt then some dt else none
    else none
  | _ => none

/-- The `Record` struct of `src/record.rs`. -/
structure Record where
  start : Option DateTimeLocal
  activity : Option Duration
  rest : Option Duration
  note : Str
deriving DecidableEq, Repr

/-- The `RecordFieldType` tagged predicate enum (derived by `FieldType` in
`src/record.rs`): one variant per field, carrying the value the field must
equal (`None` matches an absent field). -/
inductive RecordFieldType where
  | start (x : Option DateTimeLocal)
  | activity (x : Option Duration)
  | rest (x : Option Duration)
  | note (x : Str)
deriving DecidableEq, Repr

/-- One predicate test, as in the `match field` arms of `iter_to_record`
(`src/journal/file/mod.rs:81-86`). -/
def fieldMatches (f : RecordFieldType) (r : Record) : Bool :=
  match f with
  | .start x => x = r.start
  | .activity x => x = r.activity
  | .rest x => x = r.rest
  | .note x => x = r.note

/-- A record satisfies every predicate of the query. -/
def recordMatches (q : List RecordFieldType) (r : Record) : Bool :=
  q.all (fieldMatches · r)

/-- Model of `Record::to_string` (`src/record.rs:62-87`). -/
def Record.toText (r : Record) : Str :=
  let restS : Str :=
    match r.rest with
    | some d => ' ' :: '(' :: (intToStr d.numMinutes ++ [')'])
    | none => []
  let timing : Str :=
    match r.activity with
    | some a => intToStr a.numMinutes ++ restS
    | none => restS
  let line : Str :=
    '[' :: ((r.start.map formatDT).getD [] ++ ',' :: ' ' :: (timing ++ [']']))
  if r.note = [] then line else line ++ ' ' :: r.note

/-- Capture groups of `RECORD_REGEX`. -/
structure Caps where
  start : Str
  activity : Str
  rest : Option Str
  note : Str
deriving DecidableEq, Repr

/-- The optional group `(?:\(\s*(?P<rest>\-?[0-9]*)\s*\))?`: tries to match
at the head of the input; on failure the position is restored and the
capture does not participate. -/
def parseRestGroup (r : Str) : Option Str × Str :=
  match r with
  | c :: a =>
    if c = '(' then
      let a1 := dropWs a
      let sd : Str × Str := if a1.head? = some '-' then (['-'], a1.tail) else ([], a1)
      let ds := sd.2.takeWhile isDigit10
      let a3 := dropWs (sd.2.dropWhile isDigit10)
      if a3.head? = some ')' then (some (sd.1 ++ ds), a3.tail) else (none, r)
    else (none, r)
  | [] => (none, r)

/-- The tail `\r?\n*$` of `RECORD_REGEX`. -/
def tailOk (t : Str) : Bool :=
  match t with
  | c :: u => if c = '\r' then u.all (fun x => x = '\n') else (c :: u).all (fun x => x = '\n')
  | [] => true

/-- Stage of the matcher after `\]`: `\s*(?P<note>[^\n|^\r\n]*)\r?\n*$`. -/
def afterBracketClose (startCap actCap : Str) (restCap : Option Str) (r7 : Str) :
    Option Caps :=
  let r8 := dropWs r7
  if tailOk (r8.dropWhile noteCls) then
    some ⟨startCap, actCap, restCap, r8.takeWhile noteCls⟩
  else none

/-- Stage of the matcher after the rest group: `\s*\]`. -/
def afterGroup (startCap actCap : Str) (restCap : Option Str) (r5 : Str) :
    Option Caps :=
  let r6 := dropWs r5
  if r6.head? = some ']' then afterBracketClose startCap actCap restCap r6.tail
  else none

/-- Stage of the matcher after the comma:
`\s*(?P<activity>[0-9]*)\s*(?:\(\s*(?P<rest>\-?[0-9]*)\s*\))?\s*\]…`. -/
def afterComma (startCap : Str) (r2 : Str) : Option Caps :=
  let r3 := dropWs r2
  let actCap := r3.takeWhile isDigit10
  let r4 := dropWs (r3.dropWhile isDigit10)
  let rg := parseRestGroup r4
  afterGroup startCap actCap rg.1 rg.2

/-- Model of a `RECORD_REGEX` match (`captures_iter(source).next()`): the
pattern is anchored `^…$`, so it matches the whole source or not at all. -/
def parseLine (s : Str) : Option Caps :=
  match s with
  | c :: r0 =>
    if c = '[' then
      let r1 := dropWs r0
      let rc := r1.dropWhile (· != ',')
      if rc.head? = some ',' then afterComma (r1.takeWhile (· != ',')) rc.tail
      else none
    else none
  | [] => none

/-- Model of `Record::from_str` (`src/record.rs:89-108`), with `Err`
flattened to `none`. -/
def Record.fromStr (s : Str) : Option Record :=
  (parseLine s).map fun caps =>
    { start := parseDateTime caps.start
      activity := (parseI64 caps.activity).map Duration.minutes
      rest := (caps.rest.bind parseI64).map Duration.minutes
      note := caps.note }

/-- Splitting text on `'\n'`, ropey style: the list of line segments, each
without its terminator; a trailing `'\n'` yields a final empty segment, and
the empty text yields one empty segment (`len_lines` of an empty rope is 1).
Never returns `[]`. -/
def splitLines : Str → List Str
  | [] => [[]]
  | c :: t =>
    if c = '\n' then [] :: splitLines t
    else (splitLines t).modifyHead (c :: ·)

/-- Serialization of the rope back to text (`rope.write_to`), the inverse of
`splitLines`. -/
def joinLines : List Str → Str
  | [] => []
  | [s] => s
  | s :: t => s ++ '\n' :: joinLines t

/-- Model of `rope.line i` for `i < len_lines`: the segment with its
terminating `'\n'` re-attached, except for the final segment. -/
def lineAt (l : List Str) (i : Nat) : Str :=
  if i + 1 < l.length then l.getD i [] ++ ['\n'] else l.getD i []

/-- Model of `rope.line_to_char i` for `i ≤ len_lines`: the char offset of
the start of line `i` (one-past-the-end position for `i = len_lines`). -/
def lineToChar : List Str → Nat → Nat
  | _, 0 => 0
  | [], _ + 1 => 0
  | [s], _ + 1 => s.length
  | s :: t :: r, i + 1 => s.length + 1 + lineToChar (t :: r) i

/-- Model of `Iter::lines_count` (`src/journal/file/iter.rs:31-38`):
`rope.len_lines()`, minus one when the last line is empty (the trailing
empty segment created by a final terminator). -/
def ropeLinesCount (l : List Str) : Nat :=
  match l.getLast? with
  | some lastSeg => if lastSeg = [] then l.length - 1 else l.length
  | none => 0

/-- The `Item` enum of `src/journal/file/iter.rs:162-166`. -/
inductive Item where
  | record (r : Record)
  | someLine (s : Str)
deriving DecidableEq, Repr

/-- Model of `Item::into_record`. -/
def Item.intoRecord : Item → Option Record
  | .record r => some r
  | .someLine _ => none

/-- Model of `impl ToString for Item` (`src/journal/file/iter.rs:184-191`). -/
def Item.toText : Item → Str
  | .record r => r.toText
  | .someLine s => s

/-- Strip every trailing `'\n'` (`str::trim_right_matches('\n')` — note that
a `'\r'` preceding the `'\n'` is not stripped). -/
def trimRightNl (s : Str) : Str :=
  (s.reverse.dropWhile (· = '\n')).reverse

/-- The `Iter` cursor of `src/journal/file/iter.rs:10-15`: the rope (as its
list of line segments) and the current line index.  The `path` field only
feeds `flush`, which is modelled separately. -/
structure Iter where
  rope : List Str
  curLineIdx : Option Nat
deriving DecidableEq, Repr

/-- Model of `Iter::lines_count`. -/
def Iter.linesCount (it : Iter) : Nat := ropeLinesCount it.rope

/-- Model of `Iter::get` (`src/journal/file/iter.rs:40-54`): `none` when the
position is `None` or at or past `lines_count`; otherwise parse the line
(terminator included) and fall back to an opaque `SomeLine` holding the line
with trailing `'\n'`s trimmed. -/
def Iter.get (it : Iter) : Option Item :=
  match it.curLineIdx with
  | none => none
  | some i =>
    if i < it.linesCount then
      match Record.fromStr (lineAt it.rope i) with
      | some r => some (Item.record r)
      | none => some (Item.someLine (trimRightNl (lineAt it.rope i)))
    else none

/-- Model of `Iter::forward` (`src/journal/file/iter.rs:56-70`). -/
def Iter.forward (n : Nat) (it : Iter) : Iter :=
  if n > 0 then
    let toLineIdx := match it.curLineIdx with
      | some idx => idx + n
      | none => n - 1
    let lc := it.linesCount
    { it with curLineIdx := some (if toLineIdx < lc then toLineIdx else lc) }
  else it

/-- Model of `Iter::backward` (`src/journal/file/iter.rs:72-77`). -/
def Iter.backward (n : Nat) (it : Iter) : Iter :=
  match it.curLineIdx with
  | some idx => { it with curLineIdx := if idx < n then none else some (idx - n) }
  | none => it

/-- Model of `Iter::go_to_start`. -/
def Iter.goToStart (it : Iter) : Iter := { it with curLineIdx := none }

/-- Model of `Iter::go_to_end` (`src/journal/file/iter.rs:83-86`). -/
def Iter.goToEnd (it : Iter) : Iter :=
  { it with curLineIdx := if it.linesCount > 0 then some it.linesCount else none }

/-- Offset resolution after a query match, the `return` expression of
`iter_to_record` (`src/journal/file/mod.rs:92-109`); `first` is the
`first_record` flag at the match. -/
def resolveOffset (off : Int) (first : Bool) (r : Record) (it : Iter) :
    Option Record × Iter :=
  if off = 0 then (some r, it)
  else if off > 0 then
    let it2 := it.forward off.toNat
    (it2.get.bind Item.intoRecord, it2)
  else
    let it2 := (if first then it.goToEnd else it).backward (-off).toNat
    (it2.get.bind Item.intoRecord, it2)

/-- The `while let Some(item) = iter.next()` loop of `iter_to_record`
(`src/journal/file/mod.rs:78-111`, identical to `Iter::go_to_record` in
`src/journal/file/iter.rs:88-125`).  `next()` is `forward(1).get()`.  The
loop advances the cursor at least one line per iteration and stops at the
end sentinel, so it runs at most `lines_count + 1` times; `fuel` makes the
recursion structural and is instantiated with that bound. -/
def goLoop : Nat → List RecordFieldType → Int → Bool → Iter → Option Record × Iter
  | 0, _, _, _, it => (none, it)
  | fuel + 1, q, off, first, it =>
    let it1 := it.forward 1
    match it1.get with
    | none => (none, it1)
    | some (.someLine _) => goLoop fuel q off first it1
    | some (.record r) =>
      if recordMatches q r then resolveOffset off first r it1
      else goLoop fuel q off false it1

/-- Model of `iter_to_record` (`src/journal/file/mod.rs:75-113`): walk from
the cursor with `first_record = true`; a `None` offset defaults to 0. -/
def iterToRecord (it : Iter) (q : List RecordFieldType) (offset : Option Int) :
    Option Record × Iter :=
  goLoop (it.linesCount + 1) q (offset.getD 0) true it

/-- Model of `Iter::remove` (`src/journal/file/iter.rs:133-141`): with a
current index `i`, compute the char offset of line `i`, and when
`i + 1 ≤ len_lines` delete the char range of line `i` (for the final
segment this empties it; past the segments nothing changes).  The cursor
index itself is not modified. -/
def Iter.remove (it : Iter) : Option Nat × Iter :=
  match it.curLineIdx with
  | none => (none, it)
  | some i =>
    let startIdx := lineToChar it.rope i
    if i + 1 ≤ it.rope.length then
      let rope' :=
        if i + 1 < it.rope.length then it.rope.take i ++ it.rope.drop (i + 1)
        else it.rope.take i ++ [[]]
      (some startIdx, { it with rope := rope' })
    else (some startIdx, it)

/-- Model of `Iter::update` (`src/journal/file/iter.rs:127-131`): `remove`,
then insert `item.to_string() + "\n"` at the returned char offset (a line
start of the shrunk rope, so the serialized item becomes the new segment at
index `i`; when the cursor sits at `len_lines` of an unterminated rope the
insertion lands at the very end of the text).  The inserted segment is
assumed newline-free, as every item the journal constructs is. -/
def Iter.update (item : Item) (it : Iter) : Option Nat × Iter :=
  match it.remove with
  | (none, it') => (none, it')
  | (some startIdx, it') =>
    let i := it'.curLineIdx.getD 0
    let rope'' :=
      if i ≤ it'.rope.length - 1 ∧ it'.rope ≠ [] then
        it'.rope.take i ++ [item.toText] ++ it'.rope.drop i
      else
        it'.rope.dropLast ++ [(it'.rope.getLastD []) ++ item.toText] ++ [[]]
    (some startIdx, { it' with rope := rope'' })

/-- Model of `FileJournal::get` (`src/journal/file/mod.rs:42-45`): load the
file text into a fresh rope, start the cursor before the first line, and
delegate to `iter_to_record`. -/
def journalGet (text : Str) (q : List RecordFieldType) (offset : Option Int) :
    Option Record :=
  (iterToRecord ⟨splitLines text, none⟩ q offset).1

/-- Model of `FileJournal::update` (`src/journal/file/mod.rs:47-59`).  The
second component is the journal file content after the call, assuming the
flush I/O itself succeeds: the serialized rope when an update happened and
was flushed, the untouched input text otherwise (no flush is performed). -/
def journalUpdate (text : Str) (q : List RecordFieldType) (offset : Option Int)
    (f : Record → Option Record) : Bool × Str :=
  let step := iterToRecord ⟨splitLines text, none⟩ q offset
  match step.1 with
  | none => (false, text)
  | some r =>
    match f r with
    | none => (false, text)
    | some newRecord =>
      let upd := Iter.update (Item.record newRecord) step.2
      if upd.1.isSome then (true, joinLines upd.2.rope) else (false, text)

/-- Errors a flush can surface, one per fallible file operation of
`Iter::flush` (`src/journal/file/iter.rs:143-159`). -/
inductive FlushErr where
  | copyErr
  | openErr
  | writeErr
  | restoreErr
  | removeErr
deriving DecidableEq, Repr

/-- On-disk state seen by `flush`: the journal file at `path` and the
sibling backup at `path + ".tt_back"` (`none` = file absent). -/
structure FsState where
  journal : Option Str
  backup : Option Str
deriving DecidableEq, Repr

/-- Failure oracle for one flush call: whether each file operation succeeds,
and — when the buffered write fails — the partial prefix it leaves behind. -/
structure FlushOracle where
  copyOk : Bool
  openOk : Bool
  writeOutcome : Option Str
  restoreOk : Bool
  removeOk : Bool
deriving DecidableEq, Repr

/-- Model of `Iter::flush` (`src/journal/file/iter.rs:143-159`), line by
line: `fs::copy(&self.path, &backup)?`, then
`OpenOptions::new().truncate(true).write(true).open(&self.path)?` (which
truncates the file on success), then `rope.write_to(...)`; on write failure
`fs::copy(&backup, &self.path)?` restores the journal and the write error is
remembered; finally `fs::remove_file(&backup)?` and the remembered result is
returned. -/
def flushModel (newContent : Str) (o : FlushOracle) (st : FsState) :
    Except FlushErr Unit × FsState :=
  match st.journal with
  | none => (.error .copyErr, st)
  | some old =>
    if !o.copyOk then (.error .copyErr, st)
    else
      let st1 : FsState := { st with backup := some old }
      if !o.openOk then (.error .openErr, st1)
      else
        match o.writeOutcome with
        | none =>
          let st3 : FsState := { st1 with journal := some newContent }
          if o.removeOk then (.ok (), { st3 with backup := none })
          else (.error .removeErr, st3)
        | some partWritten =>
          let st3 : FsState := { st1 with journal := some partWritten }
          if !o.restoreOk then (.error .restoreErr, st3)
          else
            let st4 : FsState := { st3 with journal := some old }
            if o.removeOk then (.error .writeErr, { st4 with backup := none })
            else (.error .removeErr, st4)

/-- Specification-side view of line `i` of the rope: the record it parses
to, if any. -/
def recAt (l : List Str) (i : Nat) : Option Record :=
  Record.fromStr (lineAt l i)

/-- Specification-side predicate: line `i` holds a record matching `q`. -/
def isMatchAt (l : List Str) (q : List RecordFieldType) (i : Nat) : Bool :=
  match recAt l i with
  | some r => recordMatches q r
  | none => false

/-- First index `j` with `s ≤ j < s + k` satisfying `p`, scanning upward. -/
def findIdx (p : Nat → Bool) : Nat → Nat → Option Nat
  | 0, _ => none
  | k + 1, s => if p s then some s else findIdx p k (s + 1)

/-- Specification of the walk: the first line index at or after `s` holding
a record that satisfies every predicate of the query (opaque lines and
non-matching records are skipped). -/
def matchIdxFrom (l : List Str) (q : List RecordFieldType) (s : Nat) : Option Nat :=
  findIdx (isMatchAt l q) (ropeLinesCount l - s) s

/-- Specification of `get(query, None)`: the anchor index of the query in
file order. -/
def matchIdx (l : List Str) (q : List RecordFieldType) : Option Nat :=
  matchIdxFrom l q 0

/-- No line in `[s, j)` parses as a record (they are all opaque). -/
def noRecBetween (l : List Str) (s j : Nat) : Bool :=
  (List.range' s (j - s)).all fun t => (recAt l t).isNone

/-! ### Character and list helper lemmas -/

/-- Characters are determined by their code point. -/
lemma char_eq_of_toNat_eq {a b : Char} (h : a.toNat = b.toNat) : a = b := by
  have hv : a.val = b.val := by
    apply UInt32.eq_of_val_eq
    apply Fin.eq_of_val_eq
    exact h
  exact Char.eq_of_val_eq hv

lemma char_toNat_eq_iff {a b : Char} : a = b ↔ a.toNat = b.toNat :=
  ⟨fun h => h ▸ rfl, char_eq_of_toNat_eq⟩

lemma isDigit10_toNat {c : Char} (h : isDigit10 c = true) :
    48 ≤ c.toNat ∧ c.toNat ≤ 57 := by
  simpa [isDigit10] using h

lemma isDigit10_digitChar {k : Nat} (h : k < 10) :
    isDigit10 (Nat.digitChar k) = true := by
  interval_cases k <;> decide

lemma toNat_digitChar {k : Nat} (h : k < 10) :
    (Nat.digitChar k).toNat = 48 + k := by
  interval_cases k <;> decide

lemma digit_not_ws {c : Char} (h : isDigit10 c = true) : isWsChar c = false := by
  have := isDigit10_toNat h
  simp [isWsChar]
  omega

lemma digit_ne {c d : Char} (h : isDigit10 c = true) (hd : d.toNat < 48 ∨ 57 < d.toNat) :
    c ≠ d := by
  have := isDigit10_toNat h
  intro he
  rw [char_toNat_eq_iff] at he
  omega

lemma takeWhile_of_all {α : Type} {p : α → Bool} :
    ∀ {l : List α}, l.all p = true → l.takeWhile p = l := by
  intro l
  induction l with
  | nil => simp
  | cons a t ih =>
    intro h
    simp only [List.all_cons, Bool.and_eq_true] at h
    simp [List.takeWhile_cons, h.1, ih h.2]

lemma dropWhile_of_all {α : Type} {p : α → Bool} :
    ∀ {l : List α}, l.all p = true → l.dropWhile p = [] := by
  intro l
  induction l with
  | nil => simp
  | cons a t ih =>
    intro h
    simp only [List.all_cons, Bool.and_eq_true] at h
    simp [List.dropWhile_cons, h.1, ih h.2]

lemma takeWhile_app_stop {α : Type} {p : α → Bool} {c : α} {t : List α}
    (hc : p c = false) :
    ∀ {l : List α}, l.all p = true → (l ++ c :: t).takeWhile p = l := by
  intro l
  induction l with
  | nil => intro _; simp [List.takeWhile_cons, hc]
  | cons a u ih =>
    intro h
    simp only [List.all_cons, Bool.and_eq_true] at h
    simp [List.takeWhile_cons, h.1, ih h.2]

lemma dropWhile_app_stop {α : Type} {p : α → Bool} {c : α} {t : List α}
    (hc : p c = false) :
    ∀ {l : List α}, l.all p = true → (l ++ c :: t).dropWhile p = c :: t := by
  intro l
  induction l with
  | nil => intro _; simp [List.dropWhile_cons, hc]
  | cons a u ih =>
    intro h
    simp only [List.all_cons, Bool.and_eq_true] at h
    simp [List.dropWhile_cons, h.1, ih h.2]

lemma dropWs_cons_ws {c : Char} {t : Str} (h : isWsChar c = true) :
    dropWs (c :: t) = dropWs t := by
  simp [dropWs, List.dropWhile_cons, h]

lemma dropWs_cons_nonws {c : Char} {t : Str} (h : isWsChar c = false) :
    dropWs (c :: t) = c :: t := by
  simp [dropWs, List.dropWhile_cons, h]

lemma dropWs_nil : dropWs [] = [] := rfl

/-! ### Decimal digit strings -/

lemma parseNatFold_append (acc : Nat) (l1 l2 : Str) :
    parseNatFold acc (l1 ++ l2) = parseNatFold (parseNatFold acc l1) l2 := by
  simp [parseNatFold, List.foldl_append]

lemma natDigitsAux_all_digits : ∀ fuel n, (natDigitsAux fuel n).all isDigit10 = true := by
  intro fuel
  induction fuel with
  | zero => intro n; simp [natDigitsAux]
  | succ f ih =>
    intro n
    by_cases h : n = 0
    · simp [natDigitsAux, h]
    · simp only [natDigitsAux, if_neg h, List.all_append, List.all_cons, List.all_nil,
        Bool.and_eq_true]
      exact ⟨ih _, isDigit10_digitChar (Nat.mod_lt _ (by omega)), trivial⟩

lemma natDigitsAux_parse : ∀ fuel n acc, n ≤ fuel →
    parseNatFold acc (natDigitsAux fuel n) =
      acc * 10 ^ (natDigitsAux fuel n).length + n := by
  intro fuel
  induction fuel with
  | zero =>
    intro n acc h
    interval_cases n
    simp [natDigitsAux, parseNatFold]
  | succ f ih =>
    intro n acc h
    by_cases h0 : n = 0
    · simp [natDigitsAux, h0, parseNatFold]
    · have hrec : n / 10 ≤ f := by
        have := Nat.div_lt_self (Nat.pos_of_ne_zero h0) (by omega : 1 < 10)
        omega
      simp only [natDigitsAux, if_neg h0]
      rw [parseNatFold_append]
      have hd : parseNatFold (parseNatFold acc (natDigitsAux f (n / 10)))
          [Nat.digitChar (n % 10)] =
          parseNatFold acc (natDigitsAux f (n / 10)) * 10 + n % 10 := by
        simp [parseNatFold, toNat_digitChar (Nat.mod_lt _ (by omega : 0 < 10))]
      rw [hd, ih _ acc hrec]
      simp only [List.length_append, List.length_cons, List.length_nil]
      rw [pow_succ]
      have := Nat.div_add_mod n 10
      ring_nf
      omega

lemma natToStr_all_digits (n : Nat) : (natToStr n).all isDigit10 = true := by
  by_cases h : n = 0
  · simp [natToStr, h]; decide
  · simp only [natToStr, if_neg h]
    exact natDigitsAux_all_digits n n

lemma natToStr_ne_nil (n : Nat) : natToStr n ≠ [] := by
  by_cases h : n = 0
  · simp [natToStr, h]
  · obtain ⟨m, rfl⟩ := Nat.exists_eq_succ_of_ne_zero h
    simp [natToStr, natDigitsAux]

lemma parseNat_natToStr (n : Nat) : parseNatDigits (natToStr n) = n := by
  by_cases h : n = 0
  · simp [natToStr, h, parseNatDigits, parseNatFold]
  · simp only [natToStr, if_neg h, parseNatDigits]
    rw [natDigitsAux_parse n n 0 le_rfl]
    simp

lemma digit_head_not_dash {c : Char} (h : isDigit10 c = true) : (c = '-') = False := by
  simp only [eq_iff_iff, iff_false]
  exact digit_ne h (by left; decide)

lemma digit_head_not_plus {c : Char} (h : isDigit10 c = true) : (c = '+') = False := by
  simp only [eq_iff_iff, iff_false]
  exact digit_ne h (by left; decide)

lemma parseI64_digits {ds : Str} (hne : ds ≠ []) (hall : ds.all isDigit10 = true)
    (hbound : parseNatDigits ds ≤ 2 ^ 63 - 1) :
    parseI64 ds = some (parseNatDigits ds : Int) := by
  obtain ⟨c, t, rfl⟩ := List.exists_cons_of_ne_nil hne
  have hc : isDigit10 c = true := by
    simp only [List.all_cons, Bool.and_eq_true] at hall
    exact hall.1
  simp only [parseI64, digit_head_not_dash hc, digit_head_not_plus hc, if_false]
  have hb : parseNatDigits (c :: t) ≤ 9223372036854775807 := by
    have hx := hbound
    norm_num at hx
    exact hx
  simp [hall, hb]

lemma parseI64_intToStr {i : Int} (hlo : -(2 ^ 63) ≤ i) (hhi : i ≤ 2 ^ 63 - 1) :
    parseI64 (intToStr i) = some i := by
  by_cases hneg : i < 0
  · simp only [intToStr, if_pos hneg]
    have hne := natToStr_ne_nil (-i).toNat
    obtain ⟨c, t, hct⟩ := List.exists_cons_of_ne_nil hne
    have hall := natToStr_all_digits (-i).toNat
    rw [hct]
    simp only [parseI64, if_pos rfl]
    rw [← hct]
    have hv : parseNatDigits (natToStr (-i).toNat) = (-i).toNat :=
      parseNat_natToStr _
    simp only [hne, hall, hv, ne_eq, not_false_eq_true, true_and, if_true]
    have hb : (-i).toNat ≤ 2 ^ 63 := by omega
    simp only [if_pos hb, decide_True, Bool.and_self, if_true, Option.some.injEq]
    omega
  · push_neg at hneg
    simp only [intToStr, if_neg (by omega : ¬ i < 0)]
    rw [parseI64_digits (natToStr_ne_nil _) (natToStr_all_digits _)
      (by rw [parseNat_natToStr]; omega)]
    rw [parseNat_natToStr]
    congr 1
    omega

lemma numMinutes_minutes (m : Int) : (Duration.minutes m).numMinutes = m := by
  simp only [Duration.minutes, Duration.numMinutes]
  split <;> omega

/-! ### Datetime format round trip -/

lemma val2_digitChars {a b : Nat} (ha : a < 10) (hb : b < 10) :
    val2 (Nat.digitChar a) (Nat.digitChar b) = a * 10 + b := by
  simp [val2, toNat_digitChar ha, toNat_digitChar hb]

lemma parseDateTime_formatDT {dt : DateTimeLocal} (h : validDT dt = true) :
    parseDateTime (formatDT dt) = some dt := by
  have hy : dt.year ≤ 9999 := by
    simp only [validDT, Bool.and_eq_true, decide_eq_true_eq] at h
    exact h.1.1.1.1.1.1.1
  simp only [formatDT, pad4, pad2, List.cons_append, List.nil_append]
  simp only [parseDateTime]
  have hd : ∀ k : Nat, isDigit10 (Nat.digitChar (k % 10)) = true := fun k =>
    isDigit10_digitChar (Nat.mod_lt _ (by omega))
  simp only [hd, if_pos rfl, Bool.and_true, Bool.true_and, Bool.and_self, if_true]
  have hv2 : ∀ k : Nat, k ≤ 99 →
      val2 (Nat.digitChar (k / 10 % 10)) (Nat.digitChar (k % 10)) = k := by
    intro k hk
    rw [val2_digitChars (Nat.mod_lt _ (by omega)) (Nat.mod_lt _ (by omega))]
    omega
  have hmo : dt.month ≤ 99 ∧ dt.day ≤ 99 ∧ dt.hour ≤ 99 ∧ dt.minute ≤ 99 ∧
      dt.second ≤ 99 := by
    simp only [validDT, Bool.and_eq_true, decide_eq_true_eq] at h
    have hdm : daysInMonth dt.year dt.month ≤ 31 := by
      simp only [daysInMonth]
      split
      · split <;> omega
      · split <;> omega
    omega
  have hyv : val2 (Nat.digitChar (dt.year / 1000 % 10)) (Nat.digitChar (dt.year / 100 % 10))
      * 100 +
      val2 (Nat.digitChar (dt.year / 10 % 10)) (Nat.digitChar (dt.year % 10)) = dt.year := by
    rw [val2_digitChars (Nat.mod_lt _ (by omega)) (Nat.mod_lt _ (by omega)),
        val2_digitChars (Nat.mod_lt _ (by omega)) (Nat.mod_lt _ (by omega))]
    omega
  rw [hyv, hv2 _ hmo.1, hv2 _ hmo.2.1, hv2 _ hmo.2.2.1, hv2 _ hmo.2.2.2.1,
      hv2 _ hmo.2.2.2.2]
  simp [h]

/-! ### Matching the regex model against formatted records -/

lemma digitChar_bne {k : Nat} (h : k < 10) {d : Char}
    (hd : d.toNat < 48 ∨ 57 < d.toNat) : (Nat.digitChar k != d) = true := by
  simp only [bne_iff_ne, ne_eq]
  exact digit_ne (isDigit10_digitChar h) hd

lemma digitChar_mod_ne_comma (x : Nat) : (Nat.digitChar (x % 10) != ',') = true :=
  digitChar_bne (Nat.mod_lt _ (by omega)) (by left; decide)

lemma isWsChar_digitChar_mod (x : Nat) : isWsChar (Nat.digitChar (x % 10)) = false :=
  digit_not_ws (isDigit10_digitChar (Nat.mod_lt _ (by omega)))

lemma head_digit_of_all {c : Char} {t : Str} (h : (c :: t).all isDigit10 = true) :
    isDigit10 c = true := by
  simp only [List.all_cons, Bool.and_eq_true] at h
  exact h.1

lemma dropWs_of_head_nonws {s : Str}
    (h : ∀ c t, s = c :: t → isWsChar c = false) : dropWs s = s := by
  cases s with
  | nil => rfl
  | cons c t => exact dropWs_cons_nonws (h c t rfl)

lemma dropWs_natToStr_append (n : Nat) (rest : Str) :
    dropWs (natToStr n ++ rest) = natToStr n ++ rest := by
  obtain ⟨c, t, hct⟩ := List.exists_cons_of_ne_nil (natToStr_ne_nil n)
  rw [hct, List.cons_append]
  exact dropWs_cons_nonws
    (digit_not_ws (head_digit_of_all (hct ▸ natToStr_all_digits n)))

lemma formatDT_all_ne_comma (dt : DateTimeLocal) :
    (formatDT dt).all (· != ',') = true := by
  simp [formatDT, pad4, pad2, digitChar_mod_ne_comma]

lemma formatDT_head_nonws (dt : DateTimeLocal) (rest : Str) :
    dropWs (formatDT dt ++ rest) = formatDT dt ++ rest := by
  simp only [formatDT, pad4, List.cons_append, List.append_assoc]
  exact dropWs_cons_nonws (isWsChar_digitChar_mod _)

lemma parseLine_start (ss rest : Str)
    (hss : ss.all (· != ',') = true)
    (hdrop : dropWs (ss ++ ',' :: rest) = ss ++ ',' :: rest) :
    parseLine ('[' :: (ss ++ ',' :: rest)) = afterComma ss rest := by
  simp only [parseLine, if_pos rfl, hdrop]
  rw [dropWhile_app_stop (by decide) hss, takeWhile_app_stop (by decide) hss]
  simp

lemma intToStr_nonneg (i : Int) (h : 0 ≤ i) : intToStr i = natToStr i.toNat := by
  simp [intToStr, not_lt.mpr h]

lemma intToStr_neg (i : Int) (h : i < 0) : intToStr i = '-' :: natToStr (-i).toNat := by
  simp [intToStr, h]

/-- The rest group on the exact text the formatter emits. -/
lemma parseRestGroup_formatted (m : Int) (rest : Str) :
    parseRestGroup ('(' :: (intToStr m ++ ')' :: rest)) = (some (intToStr m), rest) := by
  have h1 : ∀ n : Nat, List.takeWhile isDigit10 (natToStr n ++ ')' :: rest) = natToStr n :=
    fun n => takeWhile_app_stop (by decide) (natToStr_all_digits n)
  have h2 : ∀ n : Nat, List.dropWhile isDigit10 (natToStr n ++ ')' :: rest) = ')' :: rest :=
    fun n => dropWhile_app_stop (by decide) (natToStr_all_digits n)
  have hdw2 : dropWs (')' :: rest) = ')' :: rest := dropWs_cons_nonws (by decide)
  by_cases hm : m < 0
  · rw [intToStr_neg m hm]
    have hdw : dropWs ('-' :: (natToStr (-m).toNat ++ ')' :: rest)) =
        '-' :: (natToStr (-m).toNat ++ ')' :: rest) := dropWs_cons_nonws (by decide)
    simp [parseRestGroup, hdw, h1, h2, hdw2]
  · rw [intToStr_nonneg m (by omega)]
    obtain ⟨c, t, hct⟩ := List.exists_cons_of_ne_nil (natToStr_ne_nil m.toNat)
    have hcd : isDigit10 c = true := head_digit_of_all (hct ▸ natToStr_all_digits m.toNat)
    have hh : ((natToStr m.toNat).head? = some '-') = False := by
      rw [hct]
      simp only [List.head?_cons, Option.some.injEq, eq_iff_iff, iff_false]
      exact digit_ne hcd (by left; decide)
    simp [parseRestGroup, dropWs_natToStr_append, hh, h1, h2, hdw2]

/-- The note stage on the exact text the formatter emits. -/
lemma afterBracketClose_formatted (sc ac : Str) (rc : Option Str) (note : Str)
    (hnote : note.all noteCls = true)
    (hhead : ∀ c t, note = c :: t → isWsChar c = false) :
    afterBracketClose sc ac rc (if note = [] then [] else ' ' :: note) =
      some ⟨sc, ac, rc, note⟩ := by
  by_cases hn : note = []
  · simp [afterBracketClose, hn, dropWs, tailOk]
  · rw [if_neg hn]
    simp only [afterBracketClose]
    rw [dropWs_cons_ws (by decide), dropWs_of_head_nonws hhead]
    rw [takeWhile_of_all hnote, dropWhile_of_all hnote]
    simp [tailOk]

lemma afterGroup_close (ss ac : Str) (rc : Option Str) (nt : Str) :
    afterGroup ss ac rc (']' :: nt) = afterBracketClose ss ac rc nt := by
  simp [afterGroup, dropWs_cons_nonws (by decide : isWsChar ']' = false)]

lemma afterComma_neither (ss nt : Str) :
    afterComma ss (' ' :: ']' :: nt) = afterBracketClose ss [] none nt := by
  have h3 : dropWs (' ' :: ']' :: nt) = ']' :: nt := by
    rw [dropWs_cons_ws (by decide), dropWs_cons_nonws (by decide)]
  simp only [afterComma, h3, List.takeWhile_cons, List.dropWhile_cons,
    (by decide : isDigit10 ']' = false), Bool.false_eq_true, if_false,
    dropWs_cons_nonws (by decide : isWsChar ']' = false)]
  have hg : parseRestGroup (']' :: nt) = (none, ']' :: nt) := by
    simp [parseRestGroup]
  rw [hg]
  exact afterGroup_close ss [] none nt

lemma afterComma_restOnly (ss nt : Str) (mr : Int) :
    afterComma ss (' ' :: ' ' :: '(' :: (intToStr mr ++ ')' :: ']' :: nt)) =
      afterBracketClose ss [] (some (intToStr mr)) nt := by
  have h3 : dropWs (' ' :: ' ' :: '(' :: (intToStr mr ++ ')' :: ']' :: nt)) =
      '(' :: (intToStr mr ++ ')' :: ']' :: nt) := by
    rw [dropWs_cons_ws (by decide), dropWs_cons_ws (by decide),
      dropWs_cons_nonws (by decide)]
  simp only [afterComma, h3, List.takeWhile_cons, List.dropWhile_cons,
    (by decide : isDigit10 '(' = false), Bool.false_eq_true, if_false,
    dropWs_cons_nonws (by decide : isWsChar '(' = false)]
  rw [parseRestGroup_formatted mr (']' :: nt)]
  exact afterGroup_close ss [] (some (intToStr mr)) nt

lemma afterComma_actOnly (ss nt : Str) (ma : Int) (h : 0 ≤ ma) :
    afterComma ss (' ' :: (intToStr ma ++ ']' :: nt)) =
      afterBracketClose ss (intToStr ma) none nt := by
  rw [intToStr_nonneg ma h]
  have h3 : dropWs (' ' :: (natToStr ma.toNat ++ ']' :: nt)) =
      natToStr ma.toNat ++ ']' :: nt := by
    rw [dropWs_cons_ws (by decide), dropWs_natToStr_append]
  simp only [afterComma, h3,
    takeWhile_app_stop (by decide : isDigit10 ']' = false) (natToStr_all_digits _),
    dropWhile_app_stop (by decide : isDigit10 ']' = false) (natToStr_all_digits _),
    dropWs_cons_nonws (by decide : isWsChar ']' = false)]
  have hg : parseRestGroup (']' :: nt) = (none, ']' :: nt) := by
    simp [parseRestGroup]
  rw [hg]
  exact afterGroup_close ss (natToStr ma.toNat) none nt

lemma afterComma_both (ss nt : Str) (ma mr : Int) (h : 0 ≤ ma) :
    afterComma ss
      (' ' :: (intToStr ma ++ ' ' :: '(' :: (intToStr mr ++ ')' :: ']' :: nt))) =
      afterBracketClose ss (intToStr ma) (some (intToStr mr)) nt := by
  rw [intToStr_nonneg ma h]
  have h3 : dropWs (' ' :: (natToStr ma.toNat ++
      ' ' :: '(' :: (intToStr mr ++ ')' :: ']' :: nt))) =
      natToStr ma.toNat ++ ' ' :: '(' :: (intToStr mr ++ ')' :: ']' :: nt) := by
    rw [dropWs_cons_ws (by decide), dropWs_natToStr_append]
  simp only [afterComma, h3,
    takeWhile_app_stop (by decide : isDigit10 ' ' = false) (natToStr_all_digits _),
    dropWhile_app_stop (by decide : isDigit10 ' ' = false) (natToStr_all_digits _)]
  have h4 : dropWs (' ' :: '(' :: (intToStr mr ++ ')' :: ']' :: nt)) =
      '(' :: (intToStr mr ++ ')' :: ']' :: nt) := by
    rw [dropWs_cons_ws (by decide), dropWs_cons_nonws (by decide)]
  rw [h4, parseRestGroup_formatted mr (']' :: nt)]
  exact afterGroup_close ss (natToStr ma.toNat) (some (intToStr mr)) nt

lemma parseI64_nil : parseI64 [] = none := by decide

lemma parseDT_startText {st : Option DateTimeLocal}
    (h : st = none ∨ ∃ dt, st = some dt ∧ validDT dt = true) :
    parseDateTime ((st.map formatDT).getD []) = st := by
  rcases h with rfl | ⟨dt, rfl, hvdt⟩
  · rfl
  · simpa using parseDateTime_formatDT hvdt

lemma startText_all_ne_comma {st : Option DateTimeLocal} :
    ((st.map formatDT).getD []).all (· != ',') = true := by
  cases st with
  | none => rfl
  | some dt => simpa using formatDT_all_ne_comma dt

lemma startText_drop {st : Option DateTimeLocal} (q : Str) :
    dropWs (((st.map formatDT).getD []) ++ ',' :: q) =
      ((st.map formatDT).getD []) ++ ',' :: q := by
  cases st with
  | none => simpa using dropWs_cons_nonws (by decide : isWsChar ',' = false)
  | some dt => simpa using formatDT_head_nonws dt (',' :: q)

/-- Restricted round trip `Record::from_str(record.to_string()) == Ok(record)`:
holds for every record whose note avoids the characters excluded by the note
class of `RECORD_REGEX` and does not begin with white space, whose durations
are whole minutes within `i64` range (non-negative for the activity, whose
pattern has no sign), and whose start is absent or a calendar-valid
whole-second timestamp of years 0–9999. -/
theorem fromStr_toText_restricted (r : Record)
    (hstart : r.start = none ∨ ∃ dt, r.start = some dt ∧ validDT dt = true)
    (hact : r.activity = none ∨
      ∃ m : Int, r.activity = some (Duration.minutes m) ∧ 0 ≤ m ∧ m ≤ 2 ^ 63 - 1)
    (hrest : r.rest = none ∨
      ∃ m : Int, r.rest = some (Duration.minutes m) ∧ -(2 ^ 63) ≤ m ∧ m ≤ 2 ^ 63 - 1)
    (hnote : r.note.all noteCls = true)
    (hnotehead : ∀ c t, r.note = c :: t → isWsChar c = false) :
    Record.fromStr (Record.toText r) = some r := by
  obtain ⟨st, act, rest, note⟩ := r
  simp only at hstart hact hrest hnote hnotehead
  have hpd := parseDT_startText hstart
  have hss : ((st.map formatDT).getD []).all (· != ',') = true := startText_all_ne_comma
  have habc := afterBracketClose_formatted ((st.map formatDT).getD [])
  rcases hact with hA | ⟨ma, hA, hma0, hma1⟩ <;>
    rcases hrest with hR | ⟨mr, hR, hmr0, hmr1⟩ <;> subst hA <;> subst hR
  · -- activity none, rest none
    have htext : Record.toText ⟨st, none, none, note⟩ =
        '[' :: (((st.map formatDT).getD []) ++ ',' :: ' ' :: ']' ::
          (if note = [] then [] else ' ' :: note)) := by
      by_cases hn : note = [] <;> simp [Record.toText, hn]
    rw [Record.fromStr, htext, parseLine_start _ _ hss (startText_drop _),
      afterComma_neither, habc _ _ _ hnote hnotehead]
    simp [hpd, parseI64_nil]
  · -- activity none, rest some
    have htext : Record.toText ⟨st, none, some (Duration.minutes mr), note⟩ =
        '[' :: (((st.map formatDT).getD []) ++ ',' :: ' ' :: ' ' :: '(' ::
          (intToStr mr ++ ')' :: ']' :: (if note = [] then [] else ' ' :: note))) := by
      by_cases hn : note = [] <;> simp [Record.toText, hn, numMinutes_minutes]
    rw [Record.fromStr, htext, parseLine_start _ _ hss (startText_drop _),
      afterComma_restOnly, habc _ _ _ hnote hnotehead]
    simp [hpd, parseI64_intToStr hmr0 hmr1, parseI64_nil]
  · -- activity some, rest none
    have htext : Record.toText ⟨st, some (Duration.minutes ma), none, note⟩ =
        '[' :: (((st.map formatDT).getD []) ++ ',' :: ' ' ::
          (intToStr ma ++ ']' :: (if note = [] then [] else ' ' :: note))) := by
      by_cases hn : note = [] <;> simp [Record.toText, hn, numMinutes_minutes]
    rw [Record.fromStr, htext, parseLine_start _ _ hss (startText_drop _),
      afterComma_actOnly _ _ _ hma0, habc _ _ _ hnote hnotehead]
    simp [hpd, parseI64_intToStr (by omega : -(2 ^ 63) ≤ ma) hma1]
  · -- activity some, rest some
    have htext : Record.toText ⟨st, some (Duration.minutes ma),
        some (Duration.minutes mr), note⟩ =
        '[' :: (((st.map formatDT).getD []) ++ ',' :: ' ' ::
          (intToStr ma ++ ' ' :: '(' ::
            (intToStr mr ++ ')' :: ']' :: (if note = [] then [] else ' ' :: note)))) := by
      by_cases hn : note = [] <;> simp [Record.toText, hn, numMinutes_minutes]
    rw [Record.fromStr, htext, parseLine_start _ _ hss (startText_drop _),
      afterComma_both _ _ _ _ hma0, habc _ _ _ hnote hnotehead]
    simp [hpd, parseI64_intToStr hmr0 hmr1,
      parseI64_intToStr (by omega : -(2 ^ 63) ≤ ma) hma1]

/-! ### Splitting lemmas for the rope model -/

lemma splitLines_ne_nil : ∀ s : Str, splitLines s ≠ [] := by
  intro s
  induction s with
  | nil => simp [splitLines]
  | cons c t ih =>
    simp only [splitLines]
    split
    · simp
    · obtain ⟨y, l, h⟩ := List.exists_cons_of_ne_nil ih
      rw [h]
      simp [List.modifyHead_cons]

lemma splitLines_singleton : ∀ {t : Str} {x : Str}, splitLines t = [x] →
    ('\n' ∉ t ∧ x = t) := by
  intro t
  induction t with
  | nil =>
    intro x h
    simp [splitLines] at h
    subst h
    simp
  | cons c u ih =>
    intro x h
    simp only [splitLines] at h
    by_cases hc : c = '\n'
    · rw [if_pos hc] at h
      exact absurd (List.cons.inj h).2 (splitLines_ne_nil u)
    · rw [if_neg hc] at h
      obtain ⟨y, l, hyl⟩ := List.exists_cons_of_ne_nil (splitLines_ne_nil u)
      rw [hyl, List.modifyHead_cons] at h
      obtain ⟨hx, hl⟩ := List.cons.inj h
      obtain ⟨hni, hyu⟩ := ih (hl ▸ hyl)
      subst hyu
      refine ⟨?_, hx.symm⟩
      intro hmem
      rcases List.mem_cons.mp hmem with h1 | h2
      · exact hc h1.symm
      · exact hni h2

lemma splitLines_last_empty_iff : ∀ s : Str,
    ((splitLines s).getLast? = some []) ↔ (s = [] ∨ s.getLast? = some '\n') := by
  intro s
  induction s with
  | nil => simp [splitLines]
  | cons c t ih =>
    simp only [splitLines]
    by_cases hc : c = '\n'
    · rw [if_pos hc]
      cases t with
      | nil =>
        subst hc
        simp [splitLines]
      | cons b u =>
        obtain ⟨y, l, hyl⟩ := List.exists_cons_of_ne_nil (splitLines_ne_nil (b :: u))
        rw [hyl, List.getLast?_cons_cons, ← hyl, ih]
        simp [List.getLast?_cons_cons]
    · rw [if_neg hc]
      obtain ⟨y, l, hyl⟩ := List.exists_cons_of_ne_nil (splitLines_ne_nil t)
      rw [hyl, List.modifyHead_cons]
      cases l with
      | nil =>
        obtain ⟨hni, hyt⟩ := splitLines_singleton hyl
        rw [hyt]
        simp only [List.getLast?_singleton, Option.some.injEq]
        constructor
        · intro h
          exact absurd h (List.cons_ne_nil c t)
        · rintro (h | h)
          · exact absurd h (List.cons_ne_nil c t)
          · exfalso
            cases t with
            | nil => simp at h; exact hc h
            | cons b u =>
              rw [List.getLast?_cons_cons] at h
              exact hni (List.mem_of_mem_getLast? h)
      | cons z l2 =>
        rw [List.getLast?_cons_cons, ← List.getLast?_cons_cons (a := y), ← hyl, ih]
        cases t with
        | nil => simp [splitLines] at hyl
        | cons b u => simp [List.getLast?_cons_cons]

lemma splitLines_append_nl : ∀ s : Str,
    splitLines (s ++ ['\n']) = splitLines s ++ [[]] := by
  intro s
  induction s with
  | nil => simp [splitLines]
  | cons c t ih =>
    by_cases hc : c = '\n'
    · simp only [List.cons_append, splitLines, if_pos hc]
      exact congrArg (List.cons []) ih
    · obtain ⟨y, l, hyl⟩ := List.exists_cons_of_ne_nil (splitLines_ne_nil t)
      simp only [List.cons_append, splitLines, if_neg hc]
      rw [show t.append ['\n'] = t ++ ['\n'] from rfl, ih, hyl]
      simp [List.modifyHead_cons]

/-! ### Cursor walk characterization -/

/-- Index of the line a `next()` call would examine: 0 for a virgin cursor,
`i + 1` for a cursor parked at line `i`. -/
def posNat : Option Nat → Nat
  | none => 0
  | some i => i + 1

/-- The item line `i` yields when fetched. -/
def itemAt (l : List Str) (i : Nat) : Item :=
  match recAt l i with
  | some r => Item.record r
  | none => Item.someLine (trimRightNl (lineAt l i))

lemma forward_one (l : List Str) (pos : Option Nat) :
    Iter.forward 1 ⟨l, pos⟩ = ⟨l, some (min (posNat pos) (ropeLinesCount l))⟩ := by
  cases pos with
  | none =>
    simp only [Iter.forward, Iter.linesCount, posNat, gt_iff_lt, zero_lt_one, if_true,
      Iter.mk.injEq, true_and, Option.some.injEq]
    split <;> omega
  | some i =>
    simp only [Iter.forward, Iter.linesCount, posNat, gt_iff_lt, zero_lt_one, if_true,
      Iter.mk.injEq, true_and, Option.some.injEq]
    split <;> omega

lemma get_some_idx (l : List Str) (i : Nat) :
    Iter.get ⟨l, some i⟩ =
      if i < ropeLinesCount l then some (itemAt l i) else none := by
  simp only [Iter.get, Iter.linesCount, itemAt, recAt]
  split
  · split <;> simp_all
  · rfl

lemma get_none (l : List Str) : Iter.get ⟨l, none⟩ = none := rfl

lemma findIdx_bounds {p : Nat → Bool} :
    ∀ {k s j : Nat}, findIdx p k s = some j → s ≤ j ∧ j < s + k ∧ p j = true := by
  intro k
  induction k with
  | zero => intro s j h; simp [findIdx] at h
  | succ m ih =>
    intro s j h
    simp only [findIdx] at h
    by_cases hp : p s = true
    · rw [if_pos hp] at h
      obtain rfl := Option.some.inj h
      exact ⟨le_rfl, by omega, hp⟩
    · rw [if_neg hp] at h
      obtain ⟨h1, h2, h3⟩ := ih h
      exact ⟨by omega, by omega, h3⟩

lemma matchIdxFrom_end {l : List Str} {q : List RecordFieldType} {s : Nat}
    (h : ropeLinesCount l ≤ s) : matchIdxFrom l q s = none := by
  simp [matchIdxFrom, Nat.sub_eq_zero_of_le h, findIdx]

lemma matchIdxFrom_step {l : List Str} {q : List RecordFieldType} {s : Nat}
    (h : s < ropeLinesCount l) :
    matchIdxFrom l q s =
      if isMatchAt l q s then some s else matchIdxFrom l q (s + 1) := by
  have hk : ropeLinesCount l - s = (ropeLinesCount l - (s + 1)) + 1 := by omega
  rw [matchIdxFrom, hk, findIdx, matchIdxFrom]

lemma matchIdxFrom_ge {l : List Str} {q : List RecordFieldType} {s j : Nat}
    (h : matchIdxFrom l q s = some j) :
    s ≤ j ∧ j < ropeLinesCount l ∧ isMatchAt l q j = true := by
  obtain ⟨h1, h2, h3⟩ := findIdx_bounds h
  exact ⟨h1, by omega, h3⟩

lemma noRecBetween_self (l : List Str) (s : Nat) : noRecBetween l s s = true := by
  simp [noRecBetween]

lemma noRecBetween_step {l : List Str} {s j : Nat} (h : s < j) :
    noRecBetween l s j = ((recAt l s).isNone && noRecBetween l (s + 1) j) := by
  have hk : j - s = (j - (s + 1)) + 1 := by omega
  rw [noRecBetween, hk, List.range'_succ, List.all_cons, noRecBetween]

lemma goLoop_succ_none {f : Nat} {q : List RecordFieldType} {off : Int} {first : Bool}
    {it : Iter} (hget : (it.forward 1).get = none) :
    goLoop (f + 1) q off first it = (none, it.forward 1) := by
  simp only [goLoop, hget]

lemma goLoop_succ_someLine {f : Nat} {q : List RecordFieldType} {off : Int} {first : Bool}
    {it : Iter} {s : Str} (hget : (it.forward 1).get = some (Item.someLine s)) :
    goLoop (f + 1) q off first it = goLoop f q off first (it.forward 1) := by
  simp only [goLoop, hget]

lemma goLoop_succ_record {f : Nat} {q : List RecordFieldType} {off : Int} {first : Bool}
    {it : Iter} {r : Record} (hget : (it.forward 1).get = some (Item.record r)) :
    goLoop (f + 1) q off first it =
      if recordMatches q r then resolveOffset off first r (it.forward 1)
      else goLoop f q off false (it.forward 1) := by
  simp only [goLoop, hget]

/-- The query walk, characterized: starting anywhere, the loop finds the
first matching record line at or after the scan point, with the
`first_record` flag true iff it was true on entry and no record line was
passed over, and resolves the offset there; with no match it parks the
cursor at the end sentinel and yields `none`. -/
lemma goLoop_eq (l : List Str) (q : List RecordFieldType) (off : Int) :
    ∀ (fuel : Nat) (pos : Option Nat) (first : Bool),
      posNat pos ≤ ropeLinesCount l + 1 →
      ropeLinesCount l + 1 ≤ fuel + posNat pos →
      goLoop fuel q off first ⟨l, pos⟩ =
        match matchIdxFrom l q (posNat pos) with
        | none => (none, ⟨l, some (ropeLinesCount l)⟩)
        | some j =>
          match recAt l j with
          | some r =>
            resolveOffset off (first && noRecBetween l (posNat pos) j) r ⟨l, some j⟩
          | none => (none, ⟨l, some (ropeLinesCount l)⟩) := by
  intro fuel
  induction fuel with
  | zero =>
    intro pos first h1 h2
    cases pos with
    | none => simp [posNat] at h1 h2
    | some i =>
      simp only [posNat] at h1 h2
      have hi : i = ropeLinesCount l := by omega
      subst hi
      rw [matchIdxFrom_end (by simp only [posNat]; omega)]
      simp [goLoop]
  | succ f ih =>
    intro pos first h1 h2
    have hfwd := forward_one l pos
    by_cases hlt : posNat pos < ropeLinesCount l
    · have hmin : min (posNat pos) (ropeLinesCount l) = posNat pos := by omega
      rw [hmin] at hfwd
      have hget0 : (Iter.forward 1 ⟨l, pos⟩).get = some (itemAt l (posNat pos)) := by
        rw [hfwd, get_some_idx, if_pos hlt]
      cases hrec : recAt l (posNat pos) with
      | none =>
        have hget : (Iter.forward 1 ⟨l, pos⟩).get =
            some (Item.someLine (trimRightNl (lineAt l (posNat pos)))) := by
          rw [hget0]
          simp [itemAt, hrec]
        rw [goLoop_succ_someLine hget, hfwd]
        have hih := ih (some (posNat pos)) first
          (by show posNat pos + 1 ≤ ropeLinesCount l + 1; omega)
          (by show ropeLinesCount l + 1 ≤ f + (posNat pos + 1); omega)
        rw [show posNat (some (posNat pos)) = posNat pos + 1 from rfl] at hih
        rw [hih]
        have hmm : isMatchAt l q (posNat pos) = false := by simp [isMatchAt, hrec]
        rw [matchIdxFrom_step hlt, hmm]
        simp only [Bool.false_eq_true, if_false]
        cases hmj : matchIdxFrom l q (posNat pos + 1) with
        | none => rfl
        | some j =>
          have hge := (matchIdxFrom_ge hmj).1
          have hnr : noRecBetween l (posNat pos) j = noRecBetween l (posNat pos + 1) j := by
            rw [noRecBetween_step (by omega)]
            simp [hrec]
          cases hrj : recAt l j with
          | none => simp only [hrj]
          | some r2 => simp [hnr]
      | some r =>
        have hget : (Iter.forward 1 ⟨l, pos⟩).get = some (Item.record r) := by
          rw [hget0]
          simp [itemAt, hrec]
        rw [goLoop_succ_record hget, hfwd]
        by_cases hm : recordMatches q r = true
        · rw [if_pos hm]
          have hmi : isMatchAt l q (posNat pos) = true := by simp [isMatchAt, hrec, hm]
          rw [matchIdxFrom_step hlt, hmi]
          simp [hrec, noRecBetween_self]
        · rw [if_neg hm]
          have hmi : isMatchAt l q (posNat pos) = false := by
            simp only [isMatchAt, hrec]
            exact Bool.eq_false_iff.mpr hm
          have hih := ih (some (posNat pos)) false
            (by show posNat pos + 1 ≤ ropeLinesCount l + 1; omega)
            (by show ropeLinesCount l + 1 ≤ f + (posNat pos + 1); omega)
          rw [show posNat (some (posNat pos)) = posNat pos + 1 from rfl] at hih
          rw [hih, matchIdxFrom_step hlt, hmi]
          simp only [Bool.false_eq_true, if_false]
          cases hmj : matchIdxFrom l q (posNat pos + 1) with
          | none => rfl
          | some j =>
            have hge := (matchIdxFrom_ge hmj).1
            have hnr : noRecBetween l (posNat pos) j = false := by
              rw [noRecBetween_step (by omega)]
              simp [hrec]
            cases hrj : recAt l j with
            | none => simp only [hrj]
            | some r2 => simp [hnr]
    · have hmin : min (posNat pos) (ropeLinesCount l) = ropeLinesCount l := by omega
      rw [hmin] at hfwd
      have hget : (Iter.forward 1 ⟨l, pos⟩).get = none := by
        rw [hfwd, get_some_idx, if_neg (by omega)]
      rw [goLoop_succ_none hget, hfwd, matchIdxFrom_end (by omega)]

lemma findIdx_min {p : Nat → Bool} :
    ∀ {k s j : Nat}, findIdx p k s = some j →
      ∀ t, s ≤ t → t < j → p t = false := by
  intro k
  induction k with
  | zero => intro s j h; simp [findIdx] at h
  | succ m ih =>
    intro s j h t hst htj
    simp only [findIdx] at h
    by_cases hp : p s = true
    · rw [if_pos hp] at h
      obtain rfl := Option.some.inj h
      omega
    · rw [if_neg hp] at h
      by_cases hts : t = s
      · subst hts
        exact Bool.eq_false_iff.mpr hp
      · exact ih h t (by omega) htj

lemma findIdx_none {p : Nat → Bool} :
    ∀ {k s : Nat}, findIdx p k s = none →
      ∀ t, s ≤ t → t < s + k → p t = false := by
  intro k
  induction k with
  | zero => intro s _ t h1 h2; omega
  | succ m ih =>
    intro s h t hst htk
    simp only [findIdx] at h
    by_cases hp : p s = true
    · rw [if_pos hp] at h
      exact absurd h (by simp)
    · rw [if_neg hp] at h
      by_cases hts : t = s
      · subst hts
        exact Bool.eq_false_iff.mpr hp
      · exact ih h t (by omega) (by omega)

lemma ropeLinesCount_le_length (l : List Str) : ropeLinesCount l ≤ l.length := by
  unfold ropeLinesCount
  split
  · split <;> omega
  · omega

lemma itemAt_intoRecord (l : List Str) (i : Nat) :
    (itemAt l i).intoRecord = recAt l i := by
  cases h : recAt l i <;> simp [itemAt, h, Item.intoRecord]

lemma forward_n (l : List Str) (j n : Nat) (hn : 0 < n) :
    Iter.forward n ⟨l, some j⟩ = ⟨l, some (min (j + n) (ropeLinesCount l))⟩ := by
  simp only [Iter.forward, Iter.linesCount, if_pos hn, Iter.mk.injEq, true_and,
    Option.some.injEq]
  split <;> omega

lemma backward_n (l : List Str) (j n : Nat) :
    Iter.backward n ⟨l, some j⟩ = ⟨l, if j < n then none else some (j - n)⟩ := rfl

lemma goToEnd_eq (l : List Str) (pos : Option Nat) :
    Iter.goToEnd ⟨l, pos⟩ =
      ⟨l, if 0 < ropeLinesCount l then some (ropeLinesCount l) else none⟩ := by
  simp [Iter.goToEnd, Iter.linesCount]

lemma resolveOffset_zero (first : Bool) (r : Record) (it : Iter) :
    resolveOffset 0 first r it = (some r, it) := by
  simp [resolveOffset]

lemma resolveOffset_pos (k : Int) (hk : 0 < k) (first : Bool) (r : Record)
    (l : List Str) (j : Nat) (_hj : j < ropeLinesCount l) :
    (resolveOffset k first r ⟨l, some j⟩).1 =
      if j + k.toNat < ropeLinesCount l then recAt l (j + k.toNat) else none := by
  simp only [resolveOffset, if_neg (by omega : ¬ k = 0), if_pos hk]
  rw [forward_n l j k.toNat (by omega)]
  by_cases hlt : j + k.toNat < ropeLinesCount l
  · rw [min_eq_left (by omega), get_some_idx, if_pos hlt, if_pos hlt]
    simp [itemAt_intoRecord]
  · rw [min_eq_right (by omega), get_some_idx, if_neg (by omega), if_neg hlt]
    rfl

lemma resolveOffset_neg (k : Int) (hk : k < 0) (first : Bool) (r : Record)
    (l : List Str) (j : Nat) (hj : j < ropeLinesCount l) :
    (resolveOffset k first r ⟨l, some j⟩).1 =
      if first then
        (if (-k).toNat ≤ ropeLinesCount l then
          recAt l (ropeLinesCount l - (-k).toNat) else none)
      else
        (if (-k).toNat ≤ j then recAt l (j - (-k).toNat) else none) := by
  have hn : 0 < (-k).toNat := by omega
  simp only [resolveOffset, if_neg (by omega : ¬ k = 0), if_neg (by omega : ¬ k > 0)]
  cases first with
  | true =>
    rw [if_pos rfl, if_pos rfl, goToEnd_eq, if_pos (by omega), backward_n]
    by_cases hle : (-k).toNat ≤ ropeLinesCount l
    · rw [if_neg (by omega), if_pos hle, get_some_idx, if_pos (by omega)]
      simp [itemAt_intoRecord]
    · rw [if_pos (by omega), if_neg hle]
      rfl
  | false =>
    rw [if_neg (by simp), if_neg (by simp), backward_n]
    by_cases hle : (-k).toNat ≤ j
    · rw [if_neg (by omega), if_pos hle, get_some_idx, if_pos (by omega)]
      simp [itemAt_intoRecord]
    · rw [if_pos (by omega), if_neg hle]
      rfl

/-- Top-level characterization of `FileJournal::get`: resolve the anchor by
the first-match scan, then apply the offset policy at the anchor. -/
lemma journalGet_eq (text : Str) (q : List RecordFieldType) (off : Option Int) :
    journalGet text q off =
      match matchIdxFrom (splitLines text) q 0 with
      | none => none
      | some j =>
        match recAt (splitLines text) j with
        | some r =>
          (resolveOffset (off.getD 0) (noRecBetween (splitLines text) 0 j) r
            ⟨splitLines text, some j⟩).1
        | none => none := by
  have h := goLoop_eq (splitLines text) q (off.getD 0)
    (ropeLinesCount (splitLines text) + 1) none true (by simp [posNat]) (by simp [posNat])
  simp only [Bool.true_and, posNat] at h
  simp only [journalGet, iterToRecord, Iter.linesCount]
  rw [h]
  cases hmj : matchIdxFrom (splitLines text) q 0 with
  | none => rfl
  | some j =>
    cases hrec : recAt (splitLines text) j with
    | none => simp only [hrec]
    | some r => simp only [hrec]

lemma nl_not_mem_splitLines : ∀ (s : Str) (seg : Str), seg ∈ splitLines s → '\n' ∉ seg := by
  intro s
  induction s with
  | nil =>
    intro seg h
    simp [splitLines] at h
    simp [h]
  | cons c t ih =>
    intro seg h
    simp only [splitLines] at h
    by_cases hc : c = '\n'
    · rw [if_pos hc] at h
      rcases List.mem_cons.mp h with rfl | h2
      · simp
      · exact ih seg h2
    · rw [if_neg hc] at h
      obtain ⟨y, l, hyl⟩ := List.exists_cons_of_ne_nil (splitLines_ne_nil t)
      rw [hyl, List.modifyHead_cons] at h
      rcases List.mem_cons.mp h with rfl | h2
      · intro hmem
        rcases List.mem_cons.mp hmem with h3 | h4
        · exact hc h3.symm
        · exact ih y (hyl ▸ List.mem_cons_self y l) h4
      · exact ih seg (hyl ▸ List.mem_cons_of_mem y h2)

lemma dropNl_of_not_mem : ∀ {l : Str}, '\n' ∉ l →
    l.dropWhile (fun c => c = '\n') = l := by
  intro l h
  cases l with
  | nil => rfl
  | cons c t =>
    have hc : ¬ (c = '\n') := fun he => h (he ▸ List.mem_cons_self c t)
    simp [List.dropWhile_cons, hc]

lemma trimRightNl_no_nl {seg : Str} (h : '\n' ∉ seg) : trimRightNl seg = seg := by
  simp only [trimRightNl]
  rw [dropNl_of_not_mem (by simpa using h), List.reverse_reverse]

lemma trimRightNl_append_nl {seg : Str} (h : '\n' ∉ seg) :
    trimRightNl (seg ++ ['\n']) = seg := by
  simp only [trimRightNl, List.reverse_append, List.reverse_cons, List.reverse_nil,
    List.nil_append, List.singleton_append, List.dropWhile_cons]
  simp only [decide_True, if_true]
  rw [dropNl_of_not_mem (by simpa using h), List.reverse_reverse]

lemma trim_lineAt (s : Str) (i : Nat) (hi : i < (splitLines s).length) :
    trimRightNl (lineAt (splitLines s) i) = (splitLines s).getD i [] := by
  have hmem : (splitLines s).getD i [] ∈ splitLines s := by
    rw [List.getD_eq_getElem _ _ hi]
    exact List.getElem_mem hi
  have hnn := nl_not_mem_splitLines s _ hmem
  simp only [lineAt]
  split
  · exact trimRightNl_append_nl hnn
  · exact trimRightNl_no_nl hnn

/-! ### Claim theorems -/

/-- C4: `forward(0)` is a no-op; `forward(n)` for `n > 0` moves to
`min(p + n, line_count)` from `Some p` and to `min(n - 1, line_count)` from
`None`; `backward(n)` is a no-op from `None`, and from `Some p` yields
`None` when `n > p` and `Some (p - n)` otherwise — both clamp at the
boundaries and never fail, and neither touches the buffer. -/
theorem forward_backward_clamp (it : Iter) (n : Nat) :
    it.forward 0 = it ∧
    (0 < n → ∀ p, it.curLineIdx = some p →
      (it.forward n).curLineIdx = some (min (p + n) it.linesCount) ∧
      (it.forward n).rope = it.rope) ∧
    (0 < n → it.curLineIdx = none →
      (it.forward n).curLineIdx = some (min (n - 1) it.linesCount) ∧
      (it.forward n).rope = it.rope) ∧
    (it.curLineIdx = none → it.backward n = it) ∧
    (∀ p, it.curLineIdx = some p →
      (it.backward n).curLineIdx = (if n > p then none else some (p - n)) ∧
      (it.backward n).rope = it.rope) := by
  refine ⟨by simp [Iter.forward], ?_, ?_, ?_, ?_⟩
  · intro hn p hp
    refine ⟨?_, by simp [Iter.forward, if_pos hn, hp]⟩
    simp only [Iter.forward, if_pos hn, hp, Option.some.injEq]
    split <;> omega
  · intro hn hp
    refine ⟨?_, by simp [Iter.forward, if_pos hn, hp]⟩
    simp only [Iter.forward, if_pos hn, hp, Option.some.injEq]
    split <;> omega
  · intro hp
    simp [Iter.backward, hp]
  · intro p hp
    refine ⟨?_, by simp [Iter.backward, hp]⟩
    simp only [Iter.backward, hp]

/-- C4 witness at a concrete cursor: a three-line buffer with the cursor on
line 1, stepped by 5 in both directions. -/
theorem forward_backward_clamp_witness :
    (Iter.forward 5 ⟨[['a'], ['b'], ['c']], some 1⟩).curLineIdx = some 3 ∧
    (Iter.backward 5 ⟨[['a'], ['b'], ['c']], some 1⟩).curLineIdx = none := by
  have h := forward_backward_clamp ⟨[['a'], ['b'], ['c']], some 1⟩ 5
  refine ⟨?_, ?_⟩
  · rw [(h.2.1 (by decide) 1 rfl).1]
    decide
  · rw [(h.2.2.2.2 1 rfl).1]
    decide

/-- C5 counterexample: on the journal text `x\r\ny` the opaque item for
line 0 keeps the `'\r'` — `trim_right_matches('\n')` strips only the
`'\n'` — so the claim that the terminator of a `"\r\n"`-ended line is
stripped entirely is false. -/
theorem get_crlf_counterexample :
    Iter.get ⟨splitLines ('x' :: '\r' :: '\n' :: 'y' :: []), some 0⟩ ≠
      some (Item.someLine ('x' :: [])) ∧
    Iter.get ⟨splitLines ('x' :: '\r' :: '\n' :: 'y' :: []), some 0⟩ =
      some (Item.someLine ('x' :: '\r' :: [])) := by
  constructor
  · decide
  · decide

/-- C5 (amended): `get()` is `None` exactly when the position is `None` or
at least `lines_count`; otherwise the line parses to a `Record` item, and on
parse failure the opaque item's text is the line with its trailing `'\n'`
stripped — the raw segment, on which a `'\r'` preceding the `'\n'` is
retained. -/
theorem get_characterization (text : Str) (pos : Option Nat) :
    (Iter.get ⟨splitLines text, pos⟩ = none ↔
      (pos = none ∨ ∃ i, pos = some i ∧ ropeLinesCount (splitLines text) ≤ i)) ∧
    (∀ i, pos = some i → i < ropeLinesCount (splitLines text) →
      Iter.get ⟨splitLines text, pos⟩ =
        match Record.fromStr (lineAt (splitLines text) i) with
        | some r => some (Item.record r)
        | none => some (Item.someLine ((splitLines text).getD i []))) := by
  constructor
  · cases pos with
    | none => simp [get_none]
    | some i =>
      rw [get_some_idx]
      constructor
      · intro h
        split at h
        · exact absurd h (by simp)
        · exact Or.inr ⟨i, rfl, by omega⟩
      · rintro (h | ⟨i2, hi2, hle⟩)
        · exact absurd h (by simp)
        · obtain rfl := Option.some.inj hi2
          rw [if_neg (by omega)]
  · intro i hp hil
    subst hp
    rw [get_some_idx, if_pos hil]
    have hlen : i < (splitLines text).length :=
      lt_of_lt_of_le hil (ropeLinesCount_le_length _)
    simp only [itemAt, recAt, trim_lineAt text i hlen]
    cases hfs : Record.fromStr (lineAt (splitLines text) i) <;> simp [hfs]

/-- C5 (amended) witness: on `x\r\ny` line 0 is opaque with text `x\r` and
line 1 (`y`) is within bounds; a cursor at position 2 is at the end
sentinel and yields `None`. -/
theorem get_characterization_witness :
    Iter.get ⟨splitLines ('x' :: '\r' :: '\n' :: 'y' :: []), some 0⟩ =
      some (Item.someLine ('x' :: '\r' :: [])) ∧
    Iter.get ⟨splitLines ('x' :: '\r' :: '\n' :: 'y' :: []), some 2⟩ = none := by
  constructor
  · rw [(get_characterization ('x' :: '\r' :: '\n' :: 'y' :: []) (some 0)).2 0 rfl
      (by decide)]
    decide
  · rw [(get_characterization ('x' :: '\r' :: '\n' :: 'y' :: []) (some 2)).1.mpr
      (Or.inr ⟨2, rfl, by decide⟩)]

/-- C7 counterexample: the text consisting of a single newline has one line
(the empty line before the terminator), while the same text without the
final newline is empty and has zero lines — so "a text ending in exactly one
final newline has the same line count as the text without it" fails at the
text `"\n"`. -/
theorem linesCount_lone_newline_counterexample :
    ropeLinesCount (splitLines ('\n' :: [])) ≠ ropeLinesCount (splitLines ([] : Str)) := by
  decide

/-- C7 (amended): the trailing empty line produced by a final terminator is
never counted (`lines_count` is `len_lines - 1` whenever the text ends with
`'\n'`); the empty text has zero lines; and appending one final newline to a
nonempty text that does not already end in one leaves the line count
unchanged.  The only exception to the claim as stated is the text that IS a
single newline, whose newline-free form is the empty text. -/
theorem linesCount_trailing_newline (s : Str) :
    (s.getLast? = some '\n' →
      ropeLinesCount (splitLines s) = (splitLines s).length - 1) ∧
    (ropeLinesCount (splitLines ([] : Str)) = 0) ∧
    (s ≠ [] → s.getLast? ≠ some '\n' →
      ropeLinesCount (splitLines (s ++ ['\n'])) = ropeLinesCount (splitLines s)) := by
  refine ⟨?_, by decide, ?_⟩
  · intro hlast
    have hempty : (splitLines s).getLast? = some [] :=
      (splitLines_last_empty_iff s).mpr (Or.inr hlast)
    simp [ropeLinesCount, hempty]
  · intro hne hlast
    have hnotempty : (splitLines s).getLast? ≠ some [] := fun h =>
      ((splitLines_last_empty_iff s).mp h).elim hne hlast
    obtain ⟨y, hy⟩ : ∃ y, (splitLines s).getLast? = some y := by
      cases hgl : (splitLines s).getLast? with
      | none => exact absurd (List.getLast?_eq_none_iff.mp hgl) (splitLines_ne_nil s)
      | some y => exact ⟨y, rfl⟩
    have hyne : y ≠ [] := fun he => hnotempty (he ▸ hy)
    have happ : (splitLines (s ++ ['\n'])).getLast? = some [] := by
      rw [splitLines_append_nl]
      simp
    have h1 : ropeLinesCount (splitLines (s ++ ['\n'])) = (splitLines s).length := by
      have hg : (splitLines s ++ [[]]).getLast? = some [] := by simp
      simp only [splitLines_append_nl, ropeLinesCount, hg, eq_self_iff_true, if_true,
        List.length_append, List.length_cons, List.length_nil]
      omega
    have h2 : ropeLinesCount (splitLines s) = (splitLines s).length := by
      simp only [ropeLinesCount, hy, if_neg hyne]
    rw [h1, h2]

/-- C7 (amended) witness: the two-line text `a\nb` gains a final newline
without changing its line count, and `b\n` counts one line. -/
theorem linesCount_trailing_newline_witness :
    ropeLinesCount (splitLines (('a' :: '\n' :: 'b' :: []) ++ ['\n'])) =
      ropeLinesCount (splitLines ('a' :: '\n' :: 'b' :: [])) ∧
    ropeLinesCount (splitLines ('b' :: '\n' :: [])) =
      (splitLines ('b' :: '\n' :: [])).length - 1 := by
  constructor
  · exact (linesCount_trailing_newline ('a' :: '\n' :: 'b' :: [])).2.2 (by decide)
      (by decide)
  · exact (linesCount_trailing_newline ('b' :: '\n' :: [])).1 (by decide)

/-- C9: with the cursor on a real line `i`, both `update` (which removes the
line's char range and re-inserts the serialized item at the same offset) and
`remove` leave `cur_line_idx` untouched at `Some i`, and both return
`Some` of the char offset at which line `i` starts. -/
theorem update_remove_preserve_cursor (it : Iter) (item : Item) (i : Nat)
    (h : it.curLineIdx = some i) (hi : i < it.linesCount) :
    (it.update item).2.curLineIdx = some i ∧
    (it.update item).1 = some (lineToChar it.rope i) ∧
    (it.remove).2.curLineIdx = some i ∧
    (it.remove).1 = some (lineToChar it.rope i) := by
  have hlen : i + 1 ≤ it.rope.length := by
    have h1 := ropeLinesCount_le_length it.rope
    have h2 : i < ropeLinesCount it.rope := hi
    omega
  refine ⟨?_, ?_, ?_, ?_⟩ <;>
    simp [Iter.update, Iter.remove, h, hlen]

/-- C9 witness: a three-line buffer with the cursor on line 1; the line
starts at char offset 2 (`a` plus its newline). -/
theorem update_remove_preserve_cursor_witness :
    ((Iter.update (Item.someLine ('z' :: [])) ⟨[['a'], ['b'], ['c']], some 1⟩).2.curLineIdx
      = some 1) ∧
    ((Iter.remove ⟨[['a'], ['b'], ['c']], some 1⟩).1 = some 2) := by
  have h := update_remove_preserve_cursor ⟨[['a'], ['b'], ['c']], some 1⟩
    (Item.someLine ('z' :: [])) 1 rfl (by decide)
  refine ⟨h.1, ?_⟩
  rw [h.2.2.2]
  decide

/-- C8: when the query resolves a record but the transform declines
(returns `None`), `update` returns `false` without flushing and the journal
file content is exactly the input text. -/
theorem update_decline_no_flush (text : Str) (q : List RecordFieldType)
    (off : Option Int) (f : Record → Option Record) (r : Record)
    (h1 : (iterToRecord ⟨splitLines text, none⟩ q off).1 = some r)
    (h2 : f r = none) :
    journalUpdate text q off f = (false, text) := by
  simp [journalUpdate, h1, h2]

/-- C8 witness: a one-record journal, the empty query, and a transform that
always declines. -/
theorem update_decline_no_flush_witness :
    journalUpdate ('[' :: ',' :: ']' :: ' ' :: 'a' :: []) [] none (fun _ => none) =
      (false, '[' :: ',' :: ']' :: ' ' :: 'a' :: []) :=
  update_decline_no_flush _ [] none (fun _ => none)
    ⟨none, none, none, ('a' :: [])⟩ (by decide) rfl

/-- C3: provided the restore copy and the backup deletion succeed when
invoked, a flush over a journal holding `old` leaves the file holding either
the complete old content or the complete new content — never a torn partial
write — and when the buffered write fails (after the backup copy and the
truncating open succeeded) the journal is restored from the backup and the
original write error is the one propagated. -/
theorem flush_rollback (newContent : Str) (o : FlushOracle) (st : FsState)
    (old : Str) (hj : st.journal = some old) (hres : o.restoreOk = true)
    (hrem : o.removeOk = true) :
    ((flushModel newContent o st).2.journal = some old ∨
      (flushModel newContent o st).2.journal = some newContent) ∧
    (∀ p, o.copyOk = true → o.openOk = true → o.writeOutcome = some p →
      (flushModel newContent o st).1 = Except.error FlushErr.writeErr ∧
      (flushModel newContent o st).2.journal = some old) := by
  constructor
  · by_cases hc : o.copyOk
    · by_cases ho : o.openOk
      · cases hw : o.writeOutcome with
        | none => right; simp [flushModel, hj, hc, ho, hw, hrem]
        | some p => left; simp [flushModel, hj, hc, ho, hw, hres, hrem]
      · left; simp [flushModel, hj, hc, ho]
    · left; simp [flushModel, hj, hc]
  · intro p hc ho hw
    constructor <;> simp [flushModel, hj, hc, ho, hw, hres, hrem]

/-- C3 witness: a write failure that leaves a partial prefix `zz` is rolled
back, the old content survives, and the write error is the one returned. -/
theorem flush_rollback_witness :
    ((flushModel ('n' :: []) ⟨true, true, some ('z' :: 'z' :: []), true, true⟩
      ⟨some ('o' :: []), none⟩).2.journal = some ('o' :: []) ∨
     (flushModel ('n' :: []) ⟨true, true, some ('z' :: 'z' :: []), true, true⟩
      ⟨some ('o' :: []), none⟩).2.journal = some ('n' :: [])) ∧
    (flushModel ('n' :: []) ⟨true, true, some ('z' :: 'z' :: []), true, true⟩
      ⟨some ('o' :: []), none⟩).1 = Except.error FlushErr.writeErr := by
  have h := flush_rollback ('n' :: []) ⟨true, true, some ('z' :: 'z' :: []), true, true⟩
    ⟨some ('o' :: []), none⟩ ('o' :: []) rfl rfl rfl
  exact ⟨h.1, (h.2 ('z' :: 'z' :: []) rfl rfl rfl).1⟩

/-- C10: on every flush that reaches the final `fs::remove_file` (the backup
copy and the open succeeded, and the write either succeeded or its rollback
restore succeeded), the backup file is deleted when deletion succeeds — also
on the rolled-back path — and when deleting the backup fails, the deletion
error is the propagated one, replacing any earlier write error. -/
theorem flush_backup_deleted (newContent : Str) (o : FlushOracle) (st : FsState)
    (old : Str) (hj : st.journal = some old) (hcopy : o.copyOk = true)
    (hopen : o.openOk = true) (hcomp : o.writeOutcome = none ∨ o.restoreOk = true) :
    (o.removeOk = true → (flushModel newContent o st).2.backup = none) ∧
    (o.removeOk = false → (flushModel newContent o st).1 =
      Except.error FlushErr.removeErr) := by
  cases hw : o.writeOutcome with
  | none =>
    constructor <;> intro hr <;> simp [flushModel, hj, hcopy, hopen, hw, hr]
  | some p =>
    have hres : o.restoreOk = true := by
      rcases hcomp with h | h
      · rw [hw] at h; exact absurd h (by simp)
      · exact h
    constructor <;> intro hr <;> simp [flushModel, hj, hcopy, hopen, hw, hres, hr]

/-- C10 witness: rolled-back flush with successful deletion leaves no
backup; the same flush with failing deletion propagates the deletion
error. -/
theorem flush_backup_deleted_witness :
    (flushModel ('n' :: []) ⟨true, true, some [], true, true⟩
      ⟨some ('o' :: []), none⟩).2.backup = none ∧
    (flushModel ('n' :: []) ⟨true, true, some [], true, false⟩
      ⟨some ('o' :: []), none⟩).1 = Except.error FlushErr.removeErr := by
  constructor
  · exact (flush_backup_deleted ('n' :: []) ⟨true, true, some [], true, true⟩
      ⟨some ('o' :: []), none⟩ ('o' :: []) rfl rfl rfl (Or.inr rfl)).1 rfl
  · exact (flush_backup_deleted ('n' :: []) ⟨true, true, some [], true, false⟩
      ⟨some ('o' :: []), none⟩ ('o' :: []) rfl rfl rfl (Or.inr rfl)).2 rfl

lemma isMatchAt_some {l : List Str} {q : List RecordFieldType} {j : Nat}
    (h : isMatchAt l q j = true) :
    ∃ r, recAt l j = some r ∧ recordMatches q r = true := by
  cases hrec : recAt l j with
  | none => simp [isMatchAt, hrec] at h
  | some r =>
    refine ⟨r, rfl, ?_⟩
    simpa [isMatchAt, hrec] using h

/-- C2: `get(query, 0)` equals `get(query, None)`; both return the record at
the anchor — the first line in file order whose record satisfies every
predicate of the query, opaque lines and non-matching records skipped, the
empty query matching the first record — and `get(query, k)` for `k > 0`
returns the record exactly `k` lines forward of the anchor, or `None` when
that position holds an opaque line or lies at or past the end. -/
theorem get_offset_resolution (text : Str) (q : List RecordFieldType) :
    journalGet text q (some 0) = journalGet text q none ∧
    journalGet text q none =
      (matchIdx (splitLines text) q).bind (recAt (splitLines text)) ∧
    (∀ j, matchIdx (splitLines text) q = some j →
      isMatchAt (splitLines text) q j = true ∧
      ∀ t, t < j → isMatchAt (splitLines text) q t = false) ∧
    (matchIdx (splitLines text) q = none →
      ∀ t, t < ropeLinesCount (splitLines text) →
        isMatchAt (splitLines text) q t = false) ∧
    (∀ k : Int, 0 < k →
      journalGet text q (some k) =
        match matchIdx (splitLines text) q with
        | none => none
        | some j =>
          if j + k.toNat < ropeLinesCount (splitLines text) then
            recAt (splitLines text) (j + k.toNat)
          else none) := by
  refine ⟨rfl, ?_, ?_, ?_, ?_⟩
  · rw [journalGet_eq]
    cases hmj : matchIdxFrom (splitLines text) q 0 with
    | none => simp [matchIdx, hmj]
    | some j =>
      obtain ⟨r, hrec, hmr⟩ := isMatchAt_some (matchIdxFrom_ge hmj).2.2
      simp only [hrec, matchIdx, hmj, Option.bind_some]
      rw [show (none : Option Int).getD 0 = 0 from rfl, resolveOffset_zero]
      simp [hrec]
  · intro j hmj
    refine ⟨(matchIdxFrom_ge hmj).2.2, ?_⟩
    intro t ht
    exact findIdx_min hmj t (by omega) ht
  · intro hmj t ht
    have := findIdx_none hmj t (by omega)
    exact this (by omega)
  · intro k hk
    rw [journalGet_eq]
    cases hmj : matchIdxFrom (splitLines text) q 0 with
    | none => simp [matchIdx, hmj]
    | some j =>
      obtain ⟨r, hrec, hmr⟩ := isMatchAt_some (matchIdxFrom_ge hmj).2.2
      simp only [hrec, matchIdx, hmj]
      rw [show (some k).getD 0 = k from rfl,
        resolveOffset_pos k hk _ r _ j (matchIdxFrom_ge hmj).2.1]

/-- C2 witness: journal `a, b, c` (all records), query on note `a`:
offset 1 lands on `b` via the theorem, and offset 0 equals the `None`
offset. -/
theorem get_offset_resolution_witness :
    (journalGet ('[' :: ',' :: ']' :: ' ' :: 'a' :: '\n' ::
        '[' :: ',' :: ']' :: ' ' :: 'b' :: '\n' ::
        '[' :: ',' :: ']' :: ' ' :: 'c' :: [])
      (RecordFieldType.note ('a' :: []) :: []) (some 1) =
      match matchIdx (splitLines ('[' :: ',' :: ']' :: ' ' :: 'a' :: '\n' ::
        '[' :: ',' :: ']' :: ' ' :: 'b' :: '\n' ::
        '[' :: ',' :: ']' :: ' ' :: 'c' :: []))
          (RecordFieldType.note ('a' :: []) :: []) with
      | none => none
      | some j =>
        if j + (1 : Int).toNat < ropeLinesCount (splitLines
            ('[' :: ',' :: ']' :: ' ' :: 'a' :: '\n' ::
             '[' :: ',' :: ']' :: ' ' :: 'b' :: '\n' ::
             '[' :: ',' :: ']' :: ' ' :: 'c' :: []))
          then recAt (splitLines ('[' :: ',' :: ']' :: ' ' :: 'a' :: '\n' ::
            '[' :: ',' :: ']' :: ' ' :: 'b' :: '\n' ::
            '[' :: ',' :: ']' :: ' ' :: 'c' :: [])) (j + (1 : Int).toNat)
          else none) ∧
    journalGet ('[' :: ',' :: ']' :: ' ' :: 'a' :: '\n' ::
        '[' :: ',' :: ']' :: ' ' :: 'b' :: '\n' ::
        '[' :: ',' :: ']' :: ' ' :: 'c' :: [])
      (RecordFieldType.note ('a' :: []) :: []) (some 1) =
      some ⟨none, none, none, ('b' :: [])⟩ := by
  refine ⟨(get_offset_resolution _ _).2.2.2.2 1 (by decide), ?_⟩
  decide

/-- C1: for a negative offset, if the matched record is the first record
found in the walk (no record line precedes the anchor), the cursor is
re-anchored to the end of the journal and moved backward `-offset` lines;
otherwise the backward move is relative to the anchor; and in the
`A, B, C, D` instance where the query matches only `A` (the first record in
file order), `get(query, -1)` yields `D`. -/
theorem negative_offset_anchor_flip :
    (∀ (text : Str) (q : List RecordFieldType) (off : Int), off < 0 →
      journalGet text q (some off) =
        match matchIdx (splitLines text) q with
        | none => none
        | some j =>
          if noRecBetween (splitLines text) 0 j then
            (if (-off).toNat ≤ ropeLinesCount (splitLines text) then
              recAt (splitLines text) (ropeLinesCount (splitLines text) - (-off).toNat)
            else none)
          else
            (if (-off).toNat ≤ j then recAt (splitLines text) (j - (-off).toNat)
            else none)) ∧
    (∀ (text : Str) (q : List RecordFieldType) (A B C D : Record),
      ropeLinesCount (splitLines text) = 4 →
      recAt (splitLines text) 0 = some A →
      recAt (splitLines text) 1 = some B →
      recAt (splitLines text) 2 = some C →
      recAt (splitLines text) 3 = some D →
      recordMatches q A = true →
      journalGet text q (some (-1)) = some D) := by
  have hgen : ∀ (text : Str) (q : List RecordFieldType) (off : Int), off < 0 →
      journalGet text q (some off) =
        match matchIdx (splitLines text) q with
        | none => none
        | some j =>
          if noRecBetween (splitLines text) 0 j then
            (if (-off).toNat ≤ ropeLinesCount (splitLines text) then
              recAt (splitLines text) (ropeLinesCount (splitLines text) - (-off).toNat)
            else none)
          else
            (if (-off).toNat ≤ j then recAt (splitLines text) (j - (-off).toNat)
            else none) := by
    intro text q off hoff
    rw [journalGet_eq]
    cases hmj : matchIdxFrom (splitLines text) q 0 with
    | none => simp [matchIdx, hmj]
    | some j =>
      obtain ⟨r, hrec, hmr⟩ := isMatchAt_some (matchIdxFrom_ge hmj).2.2
      simp only [hrec, matchIdx, hmj]
      rw [show (some off).getD 0 = off from rfl,
        resolveOffset_neg off hoff _ r _ j (matchIdxFrom_ge hmj).2.1]
  refine ⟨hgen, ?_⟩
  intro text q A B C D hlc h0 hr1 hr2 hr3 hqA
  have hmj : matchIdx (splitLines text) q = some 0 := by
    rw [matchIdx, matchIdxFrom_step (by omega)]
    simp [isMatchAt, h0, hqA]
  have h := hgen text q (-1) (by omega)
  rw [h, hmj]
  simp only [noRecBetween_self, if_true]
  rw [show ((-(-1 : Int)).toNat) = 1 from rfl, hlc]
  rw [if_pos (by omega)]
  exact hr3

/-- C1 witness: four record lines `a, b, c, d`, query on note `a`;
`get(query, -1)` yields the `d` record. -/
theorem negative_offset_anchor_flip_witness :
    journalGet ('[' :: ',' :: ']' :: ' ' :: 'a' :: '\n' ::
        '[' :: ',' :: ']' :: ' ' :: 'b' :: '\n' ::
        '[' :: ',' :: ']' :: ' ' :: 'c' :: '\n' ::
        '[' :: ',' :: ']' :: ' ' :: 'd' :: [])
      (RecordFieldType.note ('a' :: []) :: []) (some (-1)) =
      some ⟨none, none, none, ('d' :: [])⟩ :=
  negative_offset_anchor_flip.2 _ (RecordFieldType.note ('a' :: []) :: [])
    ⟨none, none, none, ('a' :: [])⟩ ⟨none, none, none, ('b' :: [])⟩
    ⟨none, none, none, ('c' :: [])⟩ ⟨none, none, none, ('d' :: [])⟩
    (by decide) (by decide) (by decide) (by decide) (by decide) (by decide)

/-- C6 counterexample: the record whose note is the single character `|`
formats to `[, ] |`, which `RECORD_REGEX` rejects (the note class
`[^\n|^\r\n]` excludes `|`), so `Record::from_str(r.to_string())` is an
error, not `Ok(r)` — the unrestricted round trip is false. -/
theorem record_roundtrip_counterexample :
    Record.fromStr (Record.toText ⟨none, none, none, ('|' :: [])⟩) ≠
      some ⟨none, none, none, ('|' :: [])⟩ ∧
    Record.fromStr (Record.toText ⟨none, none, none, ('|' :: [])⟩) = none := by
  constructor
  · decide
  · decide

/-- C6 (amended): `Record::from_str(r.to_string()) == Ok(r)` holds for every
record whose note contains none of the characters `'\n'`, `'\r'`, `'|'`,
`'^'` excluded by the note class and does not begin with white space (which
the greedy `\s*` before the note capture would swallow), whose activity is
absent or a non-negative whole number of minutes within `i64` range (its
pattern has no sign), whose rest is absent or a whole number of minutes
within `i64` range, and whose start is absent or a calendar-valid
whole-second timestamp with a four-digit year. -/
theorem record_roundtrip_restricted (r : Record)
    (hstart : r.start = none ∨ ∃ dt, r.start = some dt ∧ validDT dt = true)
    (hact : r.activity = none ∨
      ∃ m : Int, r.activity = some (Duration.minutes m) ∧ 0 ≤ m ∧ m ≤ 2 ^ 63 - 1)
    (hrest : r.rest = none ∨
      ∃ m : Int, r.rest = some (Duration.minutes m) ∧ -(2 ^ 63) ≤ m ∧ m ≤ 2 ^ 63 - 1)
    (hnote : r.note.all noteCls = true)
    (hnotehead : ∀ c t, r.note = c :: t → isWsChar c = false) :
    Record.fromStr (Record.toText r) = some r :=
  fromStr_toText_restricted r hstart hact hrest hnote hnotehead

/-- C6 (amended) witness: a fully populated record — timestamp
`2018-07-26 23:03:41`, 33 minutes of activity, −5 minutes of rest, note
`Some note` — survives the round trip. -/
theorem record_roundtrip_restricted_witness :
    Record.fromStr (Record.toText
      ⟨some ⟨2018, 7, 26, 23, 3, 41⟩, some (Duration.minutes 33),
        some (Duration.minutes (-5)),
        ('S' :: 'o' :: 'm' :: 'e' :: ' ' :: 'n' :: 'o' :: 't' :: 'e' :: [])⟩) =
      some ⟨some ⟨2018, 7, 26, 23, 3, 41⟩, some (Duration.minutes 33),
        some (Duration.minutes (-5)),
        ('S' :: 'o' :: 'm' :: 'e' :: ' ' :: 'n' :: 'o' :: 't' :: 'e' :: [])⟩ :=
  record_roundtrip_restricted _
    (Or.inr ⟨⟨2018, 7, 26, 23, 3, 41⟩, rfl, by decide⟩)
    (Or.inr ⟨33, rfl, by decide, by decide⟩)
    (Or.inr ⟨-5, rfl, by decide, by decide⟩)
    (by decide)
    (fun c t h => by injection h with h1 h2; subst h1; decide)
